import Mathlib

/-!
Verification of the AgentOS memory subsystem
(`core/ai-worker/optimization/memory_optimizer.py`,
`core/ai-worker/memory/consolidation_engine.py`,
`core/ai-worker/memory/universal_memory.py`).

The Python code is shallowly embedded: dictionaries become association
lists (`List (String × _)`) whose order models Python dict insertion /
`OrderedDict` recency order, floats become `ℚ`, wall-clock time becomes a
`Nat` parameter threaded by the caller, and exceptions become
`Option`/`Except`.  Library functions at the boundary (`zlib`, `json`,
`hashlib.md5`) are modelled by executable stand-ins that satisfy the
contracts the code relies on; each such stand-in documents exactly what it
abstracts.
-/

namespace MemOpt

/-- Configuration record `MemoryConfig` from `memory_optimizer.py`, with the
source's default values. -/
structure MemoryConfig where
  max_memory_mb : Nat := 1024
  cache_ttl_seconds : Nat := 3600
  compression_threshold : Nat := 1024
  batch_size : Nat := 100
  cleanup_interval : Nat := 300
  redis_pool_size : Nat := 50
  local_cache_size : Nat := 10000
deriving Repr, DecidableEq

/-- A caller-supplied metadata value.  The source accepts an open
`metadata: Optional[Dict]`; this model covers the JSON-native values
(numbers, strings, lists) together with the two representative
non-JSON-native kinds the serialization layer treats specially:
Python tuples (which `json.dumps` renders as JSON arrays) and
datetime-like objects (which `default=str` renders as strings).
`arr` is the parsed form of a two-element JSON array; `tup` is the
Python tuple `(a, b)`, a *different* Python value serialized
identically. -/
inductive MetaVal where
  | num (n : Nat)
  | str (s : String)
  | arr (a b : Nat)
  | tup (a b : Nat)
  | dt (t : Nat)
deriving Repr, DecidableEq

/-- The memory object built by `OptimizedMemoryEngine.store_memory`: the dict
with keys `id`, `content`, `metadata`, `agent_id`, `timestamp`,
`access_count`, plus the `last_accessed` key added later by
`_update_access_stats`.  Metadata is the open caller dict (string keys,
`MetaVal` values); time is a `Nat` tick supplied by the caller in place
of `time.time()`. -/
structure MemoryObj where
  id : String
  content : String
  metadata : List (String × MetaVal)
  agent_id : Option String
  timestamp : Nat
  access_count : Nat
  last_accessed : Option Nat := none
deriving Repr, DecidableEq

/-- The character for a decimal digit (used to render numbers the way
`str(n)` / `json.dumps` do). -/
def digitChar (n : Nat) : Char :=
  if n = 0 then '0' else if n = 1 then '1' else if n = 2 then '2'
  else if n = 3 then '3' else if n = 4 then '4' else if n = 5 then '5'
  else if n = 6 then '6' else if n = 7 then '7' else if n = 8 then '8'
  else '9'

/-- Fuel-driven decimal rendering (fuel keeps the recursion structural so
that concrete instances reduce in the kernel). -/
def natDigitsAux : Nat → Nat → List Char
  | 0, _ => []
  | fuel + 1, n =>
    if n < 10 then [digitChar n]
    else natDigitsAux fuel (n / 10) ++ [digitChar (n % 10)]

/-- Decimal rendering of a natural, as Python's `str(n)` produces it. -/
def natDigits (n : Nat) : List Char := natDigitsAux (n + 1) n

/-- Decimal rendering as a `String`. -/
def natRepr (n : Nat) : String := String.mk (natDigits n)

theorem natDigitsAux_fuel_irrel :
    ∀ f₁ f₂ n, n < f₁ → n < f₂ → natDigitsAux f₁ n = natDigitsAux f₂ n := by
  intro f₁
  induction f₁ with
  | zero => intro f₂ n h; omega
  | succ f ih =>
    intro f₂ n h1 h2
    match f₂, h2 with
    | f₂ + 1, h2 =>
      by_cases h10 : n < 10
      · simp [natDigitsAux, h10]
      · have hdiv : n / 10 < n := Nat.div_lt_self (by omega) (by omega)
        simp only [natDigitsAux, h10, if_false]
        rw [ih f₂ (n / 10) (by omega) (by omega)]

/-- Unfolding equation for `natDigits` in its natural recursive form. -/
theorem natDigits_def (n : Nat) :
    natDigits n =
      if n < 10 then [digitChar n]
      else natDigits (n / 10) ++ [digitChar (n % 10)] := by
  by_cases h10 : n < 10
  · simp [natDigits, natDigitsAux, h10]
  · have hdiv : n / 10 < n := Nat.div_lt_self (by omega) (by omega)
    have h1 : natDigits n = natDigitsAux n (n / 10) ++ [digitChar (n % 10)] := by
      simp [natDigits, natDigitsAux, h10]
    rw [h1, if_neg h10,
      natDigitsAux_fuel_irrel n (n / 10 + 1) (n / 10) (by omega) (by omega)]
    rfl

theorem natDigits_ne_nil (n : Nat) : natDigits n ≠ [] := by
  rw [natDigits_def]
  by_cases h10 : n < 10 <;> simp [h10]

theorem digitChar_spec (n : Nat) (h : n < 10) :
    (digitChar n).isDigit = true ∧ (digitChar n).toNat - 48 = n := by
  interval_cases n <;> exact ⟨by decide, by decide⟩

/-- The numeric value read back from a digit list (specification device used
to prove injectivity of `natDigits`). -/
def digitsVal (l : List Char) : Nat :=
  l.foldl (fun a c => 10 * a + (c.toNat - 48)) 0

theorem digitsVal_natDigits_aux :
    ∀ n acc, List.foldl (fun a c => 10 * a + (c.toNat - 48)) acc (natDigits n) =
      acc * 10 ^ (natDigits n).length + n := by
  intro n
  induction n using Nat.strong_induction_on with
  | _ n ih =>
    intro acc
    rw [natDigits_def]
    by_cases h10 : n < 10
    · simp only [h10, if_true, List.foldl_cons, List.foldl_nil, List.length_cons,
        List.length_nil]
      have := (digitChar_spec n h10).2
      simp [this, pow_one]
      omega
    · have hdiv : n / 10 < n := Nat.div_lt_self (by omega) (by omega)
      simp only [h10, if_false, List.foldl_append, List.foldl_cons, List.foldl_nil,
        List.length_append, List.length_cons, List.length_nil]
      rw [ih (n / 10) hdiv acc]
      have hm : n % 10 < 10 := Nat.mod_lt _ (by omega)
      have := (digitChar_spec (n % 10) hm).2
      rw [this, pow_succ]
      have hdm : 10 * (n / 10) + n % 10 = n := Nat.div_add_mod n 10
      have : acc * (10 ^ (natDigits (n / 10)).length * 10) =
          acc * 10 ^ (natDigits (n / 10)).length * 10 := by ring
      omega

theorem digitsVal_natDigits (n : Nat) : digitsVal (natDigits n) = n := by
  have := digitsVal_natDigits_aux n 0
  simpa [digitsVal] using this

theorem natDigits_injective : Function.Injective natDigits := by
  intro a b h
  have := digitsVal_natDigits a
  rw [h, digitsVal_natDigits] at this
  omega

/-! ### A model of `json.dumps` / `json.loads` for the memory-object schema

`json.dumps(memory_obj, default=str)` renders the dict with keys in
insertion order, separators `", "` and `": "`, and escapes `"` and `\` in
strings (the model omits control-character and non-ASCII escapes, which the
claims never exercise).  `json.loads` is modelled by a parser for exactly
the shape the serializer emits.  Bytes are modelled as `List Char`. -/

/-- JSON escaping of one character (quote and backslash). -/
def escapeChar (c : Char) : List Char :=
  if c = '"' ∨ c = '\\' then ['\\', c] else [c]

/-- JSON string body escaping. -/
def escapeStr (s : String) : List Char := (s.data.map escapeChar).flatten

/-- A JSON string literal: `"…"` with escaping. -/
def jquote (s : String) : List Char := '"' :: escapeStr s ++ ['"']

/-- `"key": ` — a serialized object key followed by the `": "` separator. -/
def keyLit (k : String) : List Char := jquote k ++ [':', ' ']

/-- The string `str(value)` produces for a datetime-like object of tick
`t` (the exact text is immaterial — only that `default=str` turns the
object into *some* string). -/
def dtRepr (t : Nat) : String := "datetime-" ++ natRepr t

/-- `json.dumps` rendering of one metadata value: numbers and strings
natively, tuples and lists both as `[a, b]`, non-serializable objects
through `default=str` as their string form. -/
def jsonVal : MetaVal → List Char
  | .num n => natDigits n
  | .str s => jquote s
  | .arr a b => '[' :: natDigits a ++ ',' :: ' ' :: natDigits b ++ [']']
  | .tup a b => '[' :: natDigits a ++ ',' :: ' ' :: natDigits b ++ [']']
  | .dt t => jquote (dtRepr t)

/-- What `json.loads` gives back for a value `json.dumps(default=str)`
wrote: numbers, strings and lists survive; a tuple comes back as a list
and a stringified datetime comes back as a plain string. -/
def roundVal : MetaVal → MetaVal
  | .num n => .num n
  | .str s => .str s
  | .arr a b => .arr a b
  | .tup a b => .arr a b
  | .dt t => .str (dtRepr t)

/-- Whether a metadata value is JSON-native, i.e. survives the
dump/load cycle unchanged. -/
def MetaVal.isNative : MetaVal → Bool
  | .num _ => true
  | .str _ => true
  | .arr _ _ => true
  | .tup _ _ => false
  | .dt _ => false

theorem roundVal_of_isNative (v : MetaVal) (h : v.isNative = true) : roundVal v = v := by
  cases v <;> simp [MetaVal.isNative] at h ⊢ <;> rfl

/-- Serialized body of the `metadata` sub-dict (pairs in insertion order,
separated by `", "`). -/
def metaBody : List (String × MetaVal) → List Char
  | [] => []
  | [kv] => jquote kv.1 ++ ':' :: ' ' :: jsonVal kv.2
  | kv :: rest => jquote kv.1 ++ ':' :: ' ' :: jsonVal kv.2 ++ ',' :: ' ' :: metaBody rest

/-- The serialized `metadata` sub-dict. -/
def jsonMeta (md : List (String × MetaVal)) : List Char := '{' :: metaBody md ++ ['}']

/-- The metadata dict as it comes back from a dump/load cycle. -/
def roundMeta (md : List (String × MetaVal)) : List (String × MetaVal) :=
  md.map (fun kv => (kv.1, roundVal kv.2))

/-- Serialization of an optional string (`null` for Python `None`). -/
def jsonOptStr : Option String → List Char
  | none => ['n', 'u', 'l', 'l']
  | some s => jquote s

/-- Trailing part of the serialized object: the optional `last_accessed`
key and the closing brace. -/
def jsonTail : Option Nat → List Char
  | none => ['}']
  | some t => ',' :: ' ' :: keyLit ("last_accessed") ++ natDigits t ++ ['}']

/-- `json.dumps(memory_obj, default=str)`: the exact byte sequence the
source serializes a memory object to. -/
def jsonDumps (m : MemoryObj) : List Char :=
  '{' :: keyLit ("id") ++ jquote m.id
  ++ ',' :: ' ' :: keyLit ("content") ++ jquote m.content
  ++ ',' :: ' ' :: keyLit ("metadata") ++ jsonMeta m.metadata
  ++ ',' :: ' ' :: keyLit ("agent_id") ++ jsonOptStr m.agent_id
  ++ ',' :: ' ' :: keyLit ("timestamp") ++ natDigits m.timestamp
  ++ ',' :: ' ' :: keyLit ("access_count") ++ natDigits m.access_count
  ++ jsonTail m.last_accessed

/-- Strip an expected literal from the front of the input (`none` when the
input does not start with it). -/
def dropLit : List Char → List Char → Option (List Char)
  | [], s => some s
  | _ :: _, [] => none
  | c :: cs, d :: ds => if c = d then dropLit cs ds else none

/-- Parse a JSON string body up to the closing quote, undoing escaping
(fuel keeps the recursion structural; callers pass the input length). -/
def parseStrAux : Nat → List Char → Option (List Char × List Char)
  | 0, _ => none
  | _ + 1, [] => none
  | fuel + 1, c :: rest =>
    if c = '"' then some ([], rest)
    else if c = '\\' then
      match rest with
      | [] => none
      | d :: rest2 =>
        if d = '"' ∨ d = '\\' then
          (parseStrAux fuel rest2).map (fun p => (d :: p.1, p.2))
        else none
    else (parseStrAux fuel rest).map (fun p => (c :: p.1, p.2))

/-- Parse a JSON string literal (opening quote included). -/
def parseQuotedStr (s : List Char) : Option (String × List Char) :=
  match s with
  | c :: rest =>
    if c = '"' then (parseStrAux (rest.length + 1) rest).map (fun p => (String.mk p.1, p.2))
    else none
  | [] => none

/-- Accumulator loop of decimal-number parsing. -/
def parseDigitsAux (acc : Nat) : List Char → Nat × List Char
  | [] => (acc, [])
  | c :: rest =>
    if c.isDigit then parseDigitsAux (10 * acc + (c.toNat - 48)) rest
    else (acc, c :: rest)

/-- Parse a decimal natural (at least one digit). -/
def parseNat (s : List Char) : Option (Nat × List Char) :=
  match s with
  | [] => none
  | c :: _ => if c.isDigit then some (parseDigitsAux 0 s) else none

theorem dropLit_append (p r : List Char) : dropLit p (p ++ r) = some r := by
  induction p with
  | nil => rfl
  | cons c cs ih => simp [dropLit, ih]

theorem length_le_escape (l : List Char) :
    l.length ≤ ((l.map escapeChar).flatten).length := by
  induction l with
  | nil => simp
  | cons c cs ih =>
    simp only [List.map_cons, List.flatten_cons, List.length_append, List.length_cons]
    have h1 : 1 ≤ (escapeChar c).length := by
      by_cases hc : c = '"' ∨ c = '\\' <;> simp [escapeChar, hc]
    omega

theorem parseStrAux_escape (l : List Char) :
    ∀ fuel rest, l.length + 1 ≤ fuel →
      parseStrAux fuel ((l.map escapeChar).flatten ++ '"' :: rest) = some (l, rest) := by
  induction l with
  | nil =>
    intro fuel rest hf
    match fuel, hf with
    | f + 1, _ => simp [parseStrAux]
  | cons c cs ih =>
    intro fuel rest hf
    match fuel, hf with
    | f + 1, hf =>
      by_cases hc : c = '"' ∨ c = '\\'
      · have h1 : escapeChar c = ['\\', c] := by
          rcases hc with hc | hc <;> simp [escapeChar, hc]
        have h2 : ¬('\\' : Char) = '"' := by decide
        simp only [List.map_cons, List.flatten_cons, h1, List.cons_append,
          List.append_assoc, List.nil_append]
        simp only [List.length_cons] at hf
        simp [parseStrAux, h2, hc, ih f rest (by omega)]
      · push_neg at hc
        have h1 : escapeChar c = [c] := by simp [escapeChar, hc.1, hc.2]
        simp only [List.map_cons, List.flatten_cons, h1, List.cons_append,
          List.append_assoc, List.nil_append]
        simp only [List.length_cons] at hf
        simp [parseStrAux, hc.1, hc.2, ih f rest (by omega)]

theorem parseQuotedStr_jquote (s : String) (rest : List Char) :
    parseQuotedStr (jquote s ++ rest) = some (s, rest) := by
  have h : jquote s ++ rest = '"' :: (escapeStr s ++ '"' :: rest) := by
    simp [jquote]
  rw [h]
  have hfuel : s.data.length + 1 ≤ (escapeStr s ++ '"' :: rest).length + 1 := by
    have := length_le_escape s.data
    simp only [List.length_append, List.length_cons]
    unfold escapeStr
    omega
  simp only [parseQuotedStr, if_pos rfl]
  rw [show escapeStr s = (s.data.map escapeChar).flatten from rfl] at hfuel ⊢
  rw [parseStrAux_escape s.data _ rest hfuel]
  rfl

theorem parseDigitsAux_natDigits (n : Nat) :
    ∀ acc rest, parseDigitsAux acc (natDigits n ++ rest) =
      parseDigitsAux (acc * 10 ^ (natDigits n).length + n) rest := by
  induction n using Nat.strong_induction_on with
  | _ n ih =>
    intro acc rest
    rw [natDigits_def]
    by_cases h10 : n < 10
    · have hd := digitChar_spec n h10
      simp only [h10, if_true, List.cons_append, List.nil_append, List.length_cons,
        List.length_nil, parseDigitsAux, hd.1, if_true, hd.2]
      have hx : acc * 10 ^ (0 + 1) + n = 10 * acc + n := by
        simp [pow_one]
        ring
      rw [hx]
    · have hdiv : n / 10 < n := Nat.div_lt_self (by omega) (by omega)
      have hm : n % 10 < 10 := Nat.mod_lt _ (by omega)
      have hd := digitChar_spec (n % 10) hm
      simp only [h10, if_false, List.append_assoc, List.cons_append, List.nil_append]
      rw [ih (n / 10) hdiv acc]
      show parseDigitsAux _ (digitChar (n % 10) :: rest) = _
      simp only [parseDigitsAux, hd.1, if_true, hd.2]
      have hx : acc * 10 ^ (natDigits (n / 10) ++ [digitChar (n % 10)]).length + n =
          10 * (acc * 10 ^ (natDigits (n / 10)).length + n / 10) + n % 10 := by
        simp only [List.length_append, List.length_cons, List.length_nil]
        rw [Nat.zero_add, pow_succ]
        have hdm : 10 * (n / 10) + n % 10 = n := Nat.div_add_mod n 10
        have hy : acc * (10 ^ (natDigits (n / 10)).length * 10) =
            acc * 10 ^ (natDigits (n / 10)).length * 10 := by ring
        omega
      rw [hx]

/-- The head of a rendered decimal is a digit. -/
theorem natDigits_head_isDigit (n : Nat) :
    ∀ c rest, natDigits n = c :: rest → c.isDigit = true := by
  induction n using Nat.strong_induction_on with
  | _ n ih =>
    intro c rest h
    rw [natDigits_def] at h
    by_cases h10 : n < 10
    · rw [if_pos h10] at h
      cases h
      exact (digitChar_spec n h10).1
    · rw [if_neg h10] at h
      have hdiv : n / 10 < n := Nat.div_lt_self (by omega) (by omega)
      cases hnd : natDigits (n / 10) with
      | nil => exact absurd hnd (natDigits_ne_nil _)
      | cons c0 r0 =>
        rw [hnd] at h
        simp only [List.cons_append] at h
        injection h with h1 h2
        rw [← h1]
        exact ih (n / 10) hdiv c0 r0 hnd

theorem parseNat_natDigits (n : Nat) (rest : List Char)
    (hrest : ∀ c r, rest = c :: r → c.isDigit = false) :
    parseNat (natDigits n ++ rest) = some (n, rest) := by
  have htail : parseDigitsAux n rest = (n, rest) := by
    cases rest with
    | nil => rfl
    | cons c r =>
      have hc := hrest c r rfl
      simp [parseDigitsAux, hc]
  have hstep := parseDigitsAux_natDigits n 0 rest
  cases hnd : natDigits n with
  | nil => exact absurd hnd (natDigits_ne_nil _)
  | cons c0 r0 =>
    have hc0 : c0.isDigit = true := natDigits_head_isDigit n c0 r0 hnd
    rw [hnd] at hstep
    simp only [List.cons_append] at hstep ⊢
    simp only [parseNat, hc0, if_true]
    rw [hstep]
    simp only [Nat.zero_mul, Nat.zero_add]
    rw [htail]

/-- Parse a two-element JSON array `[a, b]` (opening bracket already
consumed). -/
def parseArr (s : List Char) : Option (MetaVal × List Char) := do
  let (a, r1) ← parseNat s
  let r2 ← dropLit [',', ' '] r1
  let (b, r3) ← parseNat r2
  let r4 ← dropLit [']'] r3
  some (MetaVal.arr a b, r4)

/-- Parse one JSON metadata value: a string, a two-element array, or a
number.  `json.loads` never yields tuples or datetimes — arrays parse as
lists and everything quoted parses as a string. -/
def parseVal (s : List Char) : Option (MetaVal × List Char) :=
  match s with
  | [] => none
  | c :: rest =>
    if c = '"' then (parseQuotedStr (c :: rest)).map (fun p => (MetaVal.str p.1, p.2))
    else if c = '[' then parseArr rest
    else (parseNat (c :: rest)).map (fun p => (MetaVal.num p.1, p.2))

/-- Loop of the metadata sub-dict parser (one fuel unit per pair). -/
def parseMetaLoop : Nat → List Char → Option (List (String × MetaVal) × List Char)
  | 0, _ => none
  | fuel + 1, s => do
    let (k, s1) ← parseQuotedStr s
    let s2 ← dropLit [':', ' '] s1
    let (v, s3) ← parseVal s2
    match s3 with
    | '}' :: r => some ([(k, v)], r)
    | ',' :: ' ' :: r => (parseMetaLoop fuel r).map (fun p => ((k, v) :: p.1, p.2))
    | _ => none

/-- Parse the serialized `metadata` sub-dict. -/
def parseMeta (s : List Char) : Option (List (String × MetaVal) × List Char) :=
  match s with
  | '{' :: '}' :: rest => some ([], rest)
  | '{' :: rest => parseMetaLoop (rest.length + 1) rest
  | _ => none

/-- Parse an optional string (`null` or a string literal). -/
def parseOptStr (s : List Char) : Option (Option String × List Char) :=
  match dropLit ['n', 'u', 'l', 'l'] s with
  | some r => some (none, r)
  | none => (parseQuotedStr s).map (fun p => (some p.1, p.2))

/-- Parse the trailing part of a serialized memory object: either the
closing brace or the optional `last_accessed` field followed by it. -/
def parseTailPart (s : List Char) : Option (Option Nat × List Char) :=
  match s with
  | '}' :: r => some (none, r)
  | _ => do
    let s13 ← dropLit (',' :: ' ' :: keyLit ("last_accessed")) s
    let (lav, s14) ← parseNat s13
    let s15 ← dropLit ['}'] s14
    some (some lav, s15)

/-- Parse a serialized memory object (shape emitted by `jsonDumps`). -/
def parseObj (s : List Char) : Option (MemoryObj × List Char) := do
  let s1 ← dropLit ('{' :: keyLit ("id")) s
  let (idv, s2) ← parseQuotedStr s1
  let s3 ← dropLit (',' :: ' ' :: keyLit ("content")) s2
  let (cv, s4) ← parseQuotedStr s3
  let s5 ← dropLit (',' :: ' ' :: keyLit ("metadata")) s4
  let (mdv, s6) ← parseMeta s5
  let s7 ← dropLit (',' :: ' ' :: keyLit ("agent_id")) s6
  let (av, s8) ← parseOptStr s7
  let s9 ← dropLit (',' :: ' ' :: keyLit ("timestamp")) s8
  let (tsv, s10) ← parseNat s9
  let s11 ← dropLit (',' :: ' ' :: keyLit ("access_count")) s10
  let (acv, s12) ← parseNat s11
  let (lav, s13) ← parseTailPart s12
  some ({ id := idv, content := cv, metadata := mdv, agent_id := av,
          timestamp := tsv, access_count := acv, last_accessed := lav }, s13)

/-- `json.loads` on a serialized memory object: parses the full input and
fails on anything else (failures model the `{}`-returning / raising
branches of the source's error handling). -/
def jsonLoads (s : List Char) : Option MemoryObj :=
  match parseObj s with
  | some (m, []) => some m
  | _ => none

theorem dropLit_eq_of (p r s : List Char) (h : s = p ++ r) : dropLit p s = some r := by
  rw [h]
  exact dropLit_append p r

theorem dropLit_brace_key (k : String) (r : List Char) :
    dropLit ('{' :: keyLit k) ('{' :: (keyLit k ++ r)) = some r :=
  dropLit_eq_of _ r _ (by simp)

theorem dropLit_comma_key (k : String) (r : List Char) :
    dropLit (',' :: ' ' :: keyLit k) (',' :: ' ' :: (keyLit k ++ r)) = some r :=
  dropLit_eq_of _ r _ (by simp)

theorem parseNat_natDigits_comma (n : Nat) (x : List Char) :
    parseNat (natDigits n ++ ',' :: x) = some (n, ',' :: x) := by
  apply parseNat_natDigits
  intro c r h
  injection h with h1 h2
  rw [← h1]
  decide

theorem parseNat_natDigits_brace (n : Nat) (x : List Char) :
    parseNat (natDigits n ++ '}' :: x) = some (n, '}' :: x) := by
  apply parseNat_natDigits
  intro c r h
  injection h with h1 h2
  rw [← h1]
  decide

theorem parseNat_natDigits_bracket (n : Nat) (x : List Char) :
    parseNat (natDigits n ++ ']' :: x) = some (n, ']' :: x) := by
  apply parseNat_natDigits
  intro c r h
  injection h with h1 h2
  rw [← h1]
  decide

theorem isDigit_head_ne (c : Char) (h : c.isDigit = true) : c ≠ '"' ∧ c ≠ '[' := by
  constructor <;> intro he <;> rw [he] at h <;> exact absurd h (by decide)

theorem parseVal_jquote (s : String) (x : List Char) :
    parseVal (jquote s ++ x) = some (MetaVal.str s, x) := by
  have hq : jquote s ++ x = '"' :: (escapeStr s ++ '"' :: x) := by simp [jquote]
  have hpq := parseQuotedStr_jquote s x
  rw [hq] at hpq
  rw [hq]
  simp [parseVal, hpq]

theorem parseVal_jsonVal (v : MetaVal) (c0 : Char) (x : List Char)
    (hc : c0.isDigit = false) :
    parseVal (jsonVal v ++ c0 :: x) = some (roundVal v, c0 :: x) := by
  cases v with
  | num n =>
    show parseVal (natDigits n ++ c0 :: x) = some (MetaVal.num n, c0 :: x)
    have hpn : parseNat (natDigits n ++ c0 :: x) = some (n, c0 :: x) := by
      apply parseNat_natDigits
      intro c r h
      injection h with h1 h2
      rw [← h1]
      exact hc
    cases hnd : natDigits n with
    | nil => exact absurd hnd (natDigits_ne_nil _)
    | cons c1 r1 =>
      have hd : c1.isDigit = true := natDigits_head_isDigit n c1 r1 hnd
      have hne := isDigit_head_ne c1 hd
      rw [hnd] at hpn
      simp only [List.cons_append] at hpn ⊢
      simp [parseVal, hne.1, hne.2, hpn]
  | str s => exact parseVal_jquote s (c0 :: x)
  | dt t => exact parseVal_jquote (dtRepr t) (c0 :: x)
  | arr a b =>
    show parseVal (('[' :: natDigits a ++ ',' :: ' ' :: natDigits b ++ [']']) ++ c0 :: x)
      = some (MetaVal.arr a b, c0 :: x)
    have h1 : (('[' :: natDigits a ++ ',' :: ' ' :: natDigits b ++ [']']) ++ c0 :: x)
        = '[' :: (natDigits a ++ ',' :: ' ' :: (natDigits b ++ ']' :: c0 :: x)) := by
      simp [List.append_assoc]
    rw [h1]
    have h2 : ¬('[' : Char) = '"' := by decide
    simp only [parseVal, h2, if_false, if_pos rfl, parseArr, parseNat_natDigits_comma,
      Option.bind_eq_bind, Option.some_bind]
    have h3 : dropLit [',', ' '] (',' :: ' ' :: (natDigits b ++ ']' :: c0 :: x))
        = some (natDigits b ++ ']' :: c0 :: x) := by simp [dropLit]
    rw [h3]
    simp only [Option.some_bind]
    rw [parseNat_natDigits_bracket]
    simp [dropLit]
  | tup a b =>
    show parseVal (('[' :: natDigits a ++ ',' :: ' ' :: natDigits b ++ [']']) ++ c0 :: x)
      = some (MetaVal.arr a b, c0 :: x)
    have h1 : (('[' :: natDigits a ++ ',' :: ' ' :: natDigits b ++ [']']) ++ c0 :: x)
        = '[' :: (natDigits a ++ ',' :: ' ' :: (natDigits b ++ ']' :: c0 :: x)) := by
      simp [List.append_assoc]
    rw [h1]
    have h2 : ¬('[' : Char) = '"' := by decide
    simp only [parseVal, h2, if_false, if_pos rfl, parseArr, parseNat_natDigits_comma,
      Option.bind_eq_bind, Option.some_bind]
    have h3 : dropLit [',', ' '] (',' :: ' ' :: (natDigits b ++ ']' :: c0 :: x))
        = some (natDigits b ++ ']' :: c0 :: x) := by simp [dropLit]
    rw [h3]
    simp only [Option.some_bind]
    rw [parseNat_natDigits_bracket]
    simp [dropLit]

theorem one_le_jsonVal_length (v : MetaVal) : 1 ≤ (jsonVal v).length := by
  cases v with
  | num n =>
    cases h : natDigits n with
    | nil => exact absurd h (natDigits_ne_nil _)
    | cons a b =>
      show 1 ≤ (natDigits n).length
      rw [h]
      simp
  | str s => simp [jsonVal, jquote]
  | arr a b => simp [jsonVal]
  | tup a b => simp [jsonVal]
  | dt t => simp [jsonVal, jquote]

theorem metaBody_length_le (md : List (String × MetaVal)) :
    md.length ≤ (metaBody md).length := by
  induction md with
  | nil => simp [metaBody]
  | cons kv rest ih =>
    cases rest with
    | nil =>
      have h1 := one_le_jsonVal_length kv.2
      simp only [metaBody, jquote, List.length_cons, List.length_append,
        List.length_singleton, List.length_nil]
      omega
    | cons kv2 rest2 =>
      have hmb : metaBody (kv :: kv2 :: rest2) =
          jquote kv.1 ++ ':' :: ' ' :: jsonVal kv.2 ++ ',' :: ' ' :: metaBody (kv2 :: rest2) := rfl
      rw [hmb]
      simp only [List.length_cons, List.length_append]
      simp only [List.length_cons] at ih
      omega

theorem parseMetaLoop_metaBody (md : List (String × MetaVal)) :
    ∀ fuel rest, md ≠ [] → md.length ≤ fuel →
      parseMetaLoop fuel (metaBody md ++ '}' :: rest) = some (roundMeta md, rest) := by
  induction md with
  | nil => intro fuel rest h; exact absurd rfl h
  | cons kv more ih =>
    intro fuel rest _ hf
    match fuel, hf with
    | f + 1, hf =>
      cases more with
      | nil =>
        have hmb : metaBody [kv] = jquote kv.1 ++ ':' :: ' ' :: jsonVal kv.2 := rfl
        rw [hmb]
        simp only [parseMetaLoop, List.append_assoc, List.cons_append]
        rw [parseQuotedStr_jquote]
        simp only [Option.bind_eq_bind, Option.some_bind]
        have hdl : dropLit [':', ' '] (':' :: ' ' :: (jsonVal kv.2 ++ '}' :: rest)) =
            some (jsonVal kv.2 ++ '}' :: rest) := by simp [dropLit]
        rw [hdl]
        simp only [Option.some_bind]
        rw [parseVal_jsonVal kv.2 '}' rest (by decide)]
        simp [roundMeta]
      | cons kv2 more2 =>
        have hmb : metaBody (kv :: kv2 :: more2) =
            jquote kv.1 ++ ':' :: ' ' :: jsonVal kv.2 ++ ',' :: ' ' :: metaBody (kv2 :: more2) := rfl
        rw [hmb]
        simp only [parseMetaLoop, List.append_assoc, List.cons_append]
        rw [parseQuotedStr_jquote]
        simp only [Option.bind_eq_bind, Option.some_bind]
        have hdl : dropLit [':', ' ']
            (':' :: ' ' :: (jsonVal kv.2 ++ ',' :: ' ' :: (metaBody (kv2 :: more2) ++ '}' :: rest))) =
            some (jsonVal kv.2 ++ ',' :: ' ' :: (metaBody (kv2 :: more2) ++ '}' :: rest)) := by
          simp [dropLit]
        rw [hdl]
        simp only [Option.some_bind]
        rw [parseVal_jsonVal kv.2 ',' (' ' :: (metaBody (kv2 :: more2) ++ '}' :: rest)) (by decide)]
        simp only [Option.some_bind]
        have hih := ih f rest (by simp) (by simp at hf ⊢; omega)
        simp only [List.append_assoc, List.cons_append] at hih
        simp [hih, roundMeta]

theorem parseMeta_cons_quote (tail : List Char) :
    parseMeta ('{' :: '"' :: tail) =
      parseMetaLoop (('"' :: tail).length + 1) ('"' :: tail) := rfl

theorem parseMeta_jsonMeta (md : List (String × MetaVal)) (rest : List Char) :
    parseMeta (jsonMeta md ++ rest) = some (roundMeta md, rest) := by
  cases md with
  | nil => rfl
  | cons kv more =>
    have hq : jsonMeta (kv :: more) ++ rest =
        '{' :: (metaBody (kv :: more) ++ '}' :: rest) := by
      simp [jsonMeta]
    rw [hq]
    have hhead : metaBody (kv :: more) ++ '}' :: rest =
        '"' :: ((metaBody (kv :: more) ++ '}' :: rest).tail) := by
      cases more <;> simp [metaBody, jquote]
    rw [hhead, parseMeta_cons_quote, ← hhead]
    apply parseMetaLoop_metaBody (kv :: more) _ rest (by simp)
    have h1 := metaBody_length_le (kv :: more)
    simp only [List.length_append, List.length_cons] at h1 ⊢
    omega

theorem parseOptStr_jsonOptStr (a : Option String) (rest : List Char) :
    parseOptStr (jsonOptStr a ++ rest) = some (a, rest) := by
  cases a with
  | none =>
    have h1 : dropLit ['n', 'u', 'l', 'l'] ('n' :: 'u' :: 'l' :: 'l' :: rest) = some rest :=
      dropLit_append ['n', 'u', 'l', 'l'] rest
    show parseOptStr ('n' :: 'u' :: 'l' :: 'l' :: rest) = some (none, rest)
    simp [parseOptStr, h1]
  | some s =>
    have hq : jsonOptStr (some s) ++ rest = '"' :: (escapeStr s ++ '"' :: rest) := by
      simp [jsonOptStr, jquote]
    rw [hq]
    have hd : dropLit ['n', 'u', 'l', 'l'] ('"' :: (escapeStr s ++ '"' :: rest)) = none := by
      simp [dropLit]
    simp only [parseOptStr, hd]
    have hpq := parseQuotedStr_jquote s rest
    rw [show jquote s ++ rest = '"' :: (escapeStr s ++ '"' :: rest) from by simp [jquote]] at hpq
    rw [hpq]
    rfl

theorem parseTailPart_jsonTail (a : Option Nat) :
    parseTailPart (jsonTail a) = some (a, []) := by
  cases a with
  | none => rfl
  | some t =>
    have hform : jsonTail (some t) =
        ',' :: ' ' :: (keyLit ("last_accessed") ++ (natDigits t ++ '}' :: [])) := by
      simp [jsonTail]
    rw [hform]
    show (do
      let s13 ← dropLit (',' :: ' ' :: keyLit ("last_accessed"))
        (',' :: ' ' :: (keyLit ("last_accessed") ++ (natDigits t ++ '}' :: [])))
      let (lav, s14) ← parseNat s13
      let s15 ← dropLit ['}'] s14
      some (some lav, s15) : Option (Option Nat × List Char)) = some (some t, [])
    rw [dropLit_comma_key]
    simp only [Option.bind_eq_bind, Option.some_bind]
    rw [parseNat_natDigits_brace]
    simp [dropLit]

/-- The memory object as it comes back from a dump/load cycle: identical
except that non-JSON-native metadata values have been replaced by their
parsed forms. -/
def roundObj (m : MemoryObj) : MemoryObj :=
  { m with metadata := roundMeta m.metadata }

theorem parseObj_jsonDumps (m : MemoryObj) :
    parseObj (jsonDumps m) = some (roundObj m, []) := by
  obtain ⟨idv, cv, mdv, av, tsv, acv, lav⟩ := m
  have hd : jsonDumps ⟨idv, cv, mdv, av, tsv, acv, lav⟩ =
      '{' :: (keyLit ("id") ++ (jquote idv
      ++ (',' :: ' ' :: (keyLit ("content") ++ (jquote cv
      ++ (',' :: ' ' :: (keyLit ("metadata") ++ (jsonMeta mdv
      ++ (',' :: ' ' :: (keyLit ("agent_id") ++ (jsonOptStr av
      ++ (',' :: ' ' :: (keyLit ("timestamp") ++ (natDigits tsv
      ++ (',' :: ' ' :: (keyLit ("access_count") ++ (natDigits acv
      ++ jsonTail lav))))))))))))))))) := by
    simp [jsonDumps, List.append_assoc]
  rw [hd]
  · rw [parseObj]
    rw [dropLit_brace_key]
    simp only [Option.bind_eq_bind, Option.some_bind]
    rw [parseQuotedStr_jquote]
    simp only [Option.some_bind]
    rw [dropLit_comma_key]
    simp only [Option.some_bind]
    rw [parseQuotedStr_jquote]
    simp only [Option.some_bind]
    rw [dropLit_comma_key]
    simp only [Option.some_bind]
    rw [parseMeta_jsonMeta]
    simp only [Option.some_bind]
    rw [dropLit_comma_key]
    simp only [Option.some_bind]
    rw [parseOptStr_jsonOptStr]
    simp only [Option.some_bind]
    rw [dropLit_comma_key]
    simp only [Option.some_bind]
    cases lav with
    | none =>
      have hjt : natDigits tsv ++ (',' :: ' ' :: (keyLit ("access_count") ++ (natDigits acv
          ++ jsonTail none))) = natDigits tsv ++ ',' :: (' ' :: (keyLit ("access_count")
          ++ (natDigits acv ++ jsonTail none))) := rfl
      rw [hjt, parseNat_natDigits_comma]
      simp only [Option.some_bind]
      rw [dropLit_comma_key]
      simp only [Option.some_bind]
      have hbr : natDigits acv ++ jsonTail none = natDigits acv ++ '}' :: [] := rfl
      rw [hbr, parseNat_natDigits_brace]
      simp only [Option.some_bind]
      rfl
    | some t =>
      have hjt : natDigits tsv ++ (',' :: ' ' :: (keyLit ("access_count") ++ (natDigits acv
          ++ jsonTail (some t)))) = natDigits tsv ++ ',' :: (' ' :: (keyLit ("access_count")
          ++ (natDigits acv ++ jsonTail (some t)))) := rfl
      rw [hjt, parseNat_natDigits_comma]
      simp only [Option.some_bind]
      rw [dropLit_comma_key]
      simp only [Option.some_bind]
      have hcm : natDigits acv ++ jsonTail (some t) = natDigits acv
          ++ ',' :: (' ' :: (keyLit ("last_accessed") ++ (natDigits t ++ '}' :: []))) := by
        simp [jsonTail]
      rw [hcm, parseNat_natDigits_comma]
      simp only [Option.some_bind]
      have := parseTailPart_jsonTail (some t)
      rw [show jsonTail (some t) = ',' :: (' ' :: (keyLit ("last_accessed")
        ++ (natDigits t ++ '}' :: []))) from by simp [jsonTail]] at this
      rw [this]
      simp only [Option.some_bind]
      rfl

theorem jsonLoads_jsonDumps (m : MemoryObj) :
    jsonLoads (jsonDumps m) = some (roundObj m) := by
  simp only [jsonLoads, parseObj_jsonDumps]

/-! ### zlib model and the compression layer

`zlib.compress` / `zlib.decompress` are modelled at their contract: a
lossless codec whose output starts with the zlib header byte `0x78`
(rendered as the character `x`), and whose decoder raises `zlib.error` on
input that does not carry that header.  JSON-serialized objects start with
`{` (`0x7b`), so raw serialized payloads are never mistaken for compressed
ones — exactly the property `_decompress_memory`'s fallback relies on. -/

/-- Model of `zlib.compress`. -/
def zlibCompress (s : List Char) : List Char := 'x' :: s

/-- Model of `zlib.decompress`; `none` models a raised `zlib.error`. -/
def zlibDecompress (s : List Char) : Option (List Char) :=
  match s with
  | 'x' :: rest => some rest
  | _ => none

theorem zlibDecompress_zlibCompress (s : List Char) :
    zlibDecompress (zlibCompress s) = some s := rfl

/-- `OptimizedMemoryEngine._compress_memory`: serialize, and compress only
when the serialized size exceeds `compression_threshold`. -/
def compressMemory (cfg : MemoryConfig) (m : MemoryObj) : List Char :=
  let serialized := jsonDumps m
  if cfg.compression_threshold < serialized.length then zlibCompress serialized
  else serialized

/-- `OptimizedMemoryEngine._decompress_memory`: try `zlib.decompress`
first, fall back to the raw payload on `zlib.error`; `none` models the
`{}` returned when decoding fails entirely. -/
def decompressMemory (data : List Char) : Option MemoryObj :=
  match zlibDecompress data with
  | some s => jsonLoads s
  | none => jsonLoads data

/-! ### Tier dictionaries

`l1_cache` is an `OrderedDict` (recency order: front = least recently
used), `l2_cache` a plain dict (insertion order).  Both become association
lists; the helpers below model the exact dict operations used. -/

/-- First-match lookup — dict indexing. -/
def lookupKey {α : Type} : List (String × α) → String → Option α
  | [], _ => none
  | (k', v) :: rest, k => if k' = k then some v else lookupKey rest k

/-- `del d[k]` — remove the binding of `k` (dict keys are unique, so
removing the first match models deletion). -/
def eraseKey {α : Type} : List (String × α) → String → List (String × α)
  | [], _ => []
  | (k', v) :: rest, k => if k' = k then rest else (k', v) :: eraseKey rest k

/-- `d[k] = v` on a plain dict: replace in place if present (position
kept), else append. -/
def dictInsert {α : Type} : List (String × α) → String → α → List (String × α)
  | [], k, v => [(k, v)]
  | (k', v') :: rest, k, v =>
    if k' = k then (k', v) :: rest else (k', v') :: dictInsert rest k v

/-- `d[k] = v` followed by `d.move_to_end(k)` on an `OrderedDict`: the net
effect is removing any existing binding and appending at the back. -/
def odInsert {α : Type} (l : List (String × α)) (k : String) (v : α) : List (String × α) :=
  eraseKey l k ++ [(k, v)]

/-- `d.move_to_end(k)` alone (used on L1 hits). -/
def moveToEnd {α : Type} (l : List (String × α)) (k : String) : List (String × α) :=
  match lookupKey l k with
  | none => l
  | some v => eraseKey l k ++ [(k, v)]

/-- The cache statistics counters the engine increments (`cache_stats`);
the wall-clock timing accumulators are not modelled. -/
structure CacheStats where
  stores : Nat := 0
  l1_hits : Nat := 0
  l2_hits : Nat := 0
  redis_hits : Nat := 0
  misses : Nat := 0
deriving Repr, DecidableEq

/-- The Redis client: `absent` models `redis_client is None`, `failing` a
connected client whose every call raises (caught by the engine), and `ok`
a working in-memory key-value store (`memory:*` values plus the set of
`compressed:*` flag keys; TTLs are not modelled). -/
inductive RedisAdapter where
  | absent
  | failing
  | ok (db : List (String × List Char)) (flags : List String)
deriving Repr, DecidableEq

/-- The mutable state of `OptimizedMemoryEngine`. -/
structure EngineState where
  l1_cache : List (String × MemoryObj)
  l2_cache : List (String × List Char)
  cache_stats : CacheStats
  redis : RedisAdapter
deriving Repr, DecidableEq

/-- `OptimizedMemoryEngine._store_in_l1_cache`: evict the front entry when
at capacity, then insert at the back.  `none` models the `StopIteration`
raised by `next(iter(...))` on an empty dict (reachable only with a zero
capacity). -/
def storeInL1 (cfg : MemoryConfig) (l1 : List (String × MemoryObj)) (k : String)
    (v : MemoryObj) : Option (List (String × MemoryObj)) :=
  if cfg.local_cache_size ≤ l1.length then
    match l1 with
    | [] => none
    | _ :: rest => some (odInsert rest k v)
  else some (odInsert l1 k v)

/-- `OptimizedMemoryEngine._store_in_cache`: L1 insert, then the compressed
copy into L2 (skipped when the L1 insert raises). -/
def storeInCache (cfg : MemoryConfig) (st : EngineState) (k : String) (v : MemoryObj) :
    Option EngineState :=
  match storeInL1 cfg st.l1_cache k v with
  | none => none
  | some l1' =>
    some { st with l1_cache := l1',
                   l2_cache := dictInsert st.l2_cache k (compressMemory cfg v) }

/-- Flag-key insertion for the `compressed:*` marker. -/
def addFlag (flags : List String) (k : String) : List String :=
  if k ∈ flags then flags else flags ++ [k]

/-- `OptimizedMemoryEngine._store_in_redis`: serialize, compress above the
threshold (also setting the `compressed:` flag key), and swallow any
client error (the source logs and returns). -/
def storeInRedis (cfg : MemoryConfig) (a : RedisAdapter) (mid : String) (m : MemoryObj) :
    RedisAdapter :=
  match a with
  | .absent => .absent
  | .failing => .failing
  | .ok db flags =>
    let serialized := jsonDumps m
    if cfg.compression_threshold < serialized.length then
      .ok (dictInsert db ("memory:" ++ mid) (zlibCompress serialized))
          (addFlag flags ("compressed:" ++ mid))
    else
      .ok (dictInsert db ("memory:" ++ mid) serialized) flags

/-- `OptimizedMemoryEngine._get_from_redis`: read the flag key and the
value, decompress when flagged; any error (client failure, `zlib.error`,
decode failure) yields `None`. -/
def getFromRedis (a : RedisAdapter) (mid : String) : Option MemoryObj :=
  match a with
  | .absent => none
  | .failing => none
  | .ok db flags =>
    match lookupKey db ("memory:" ++ mid) with
    | none => none
    | some data =>
      if ("compressed:" ++ mid) ∈ flags then
        match zlibDecompress data with
        | some s => jsonLoads s
        | none => none
      else jsonLoads data

/-! ### Id generation and the engine operations -/

/-- A hex digit character. -/
def hexDigitChar (n : Nat) : Char :=
  if n < 10 then digitChar n
  else if n = 10 then 'a' else if n = 11 then 'b' else if n = 12 then 'c'
  else if n = 13 then 'd' else if n = 14 then 'e' else 'f'

/-- Exactly `k` hex digits of `n` (most significant first). -/
def hexDigits : Nat → Nat → List Char
  | 0, _ => []
  | k + 1, n => hexDigits k (n / 16) ++ [hexDigitChar (n % 16)]

theorem hexDigits_length (k n : Nat) : (hexDigits k n).length = k := by
  induction k generalizing n with
  | zero => rfl
  | succ k ih => simp [hexDigits, ih]

/-- Model of `hashlib.md5(s.encode()).hexdigest()[:8]`: a deterministic
8-hex-character digest.  The claims use only that the digest is a pure
function of the input with a fixed 8-character length, which is all the
source relies on. -/
def md5hex8 (s : String) : String :=
  String.mk (hexDigits 8 (s.data.foldl (fun a c => a * 131 + c.toNat) 7))

theorem md5hex8_length (s : String) : (md5hex8 s).data.length = 8 := by
  simp [md5hex8, hexDigits_length]

/-- Insertion step of key-sorting the metadata pairs. -/
def insertPairByKey (kv : String × MetaVal) :
    List (String × MetaVal) → List (String × MetaVal)
  | [] => [kv]
  | kv2 :: rest =>
    if kv.1 < kv2.1 then kv :: kv2 :: rest else kv2 :: insertPairByKey kv rest

/-- `sorted(metadata.items())`. -/
def sortPairsByKey (md : List (String × MetaVal)) : List (String × MetaVal) :=
  md.foldr insertPairByKey []

/-- A textual rendering of one metadata value, modelling `str(value)`
inside `str(sorted(metadata.items()))` (only determinism feeds the
digest). -/
def metaValStr : MetaVal → String
  | .num n => natRepr n
  | .str s => s
  | .arr a b => "[" ++ natRepr a ++ ", " ++ natRepr b ++ "]"
  | .tup a b => "(" ++ natRepr a ++ ", " ++ natRepr b ++ ")"
  | .dt t => dtRepr t

/-- Model of `str(sorted((metadata or \x7b\x7d).items()))`: a canonical
rendering of the key-sorted pairs (the exact Python `repr` punctuation is
immaterial — only determinism feeds the digest). -/
def metaStr (md : List (String × MetaVal)) : String :=
  String.intercalate "," ((sortPairsByKey md).map (fun kv => kv.1 ++ "=" ++ metaValStr kv.2))

/-- `OptimizedMemoryEngine._generate_memory_id`:
`md5(content)[:8] + "_" + md5(str(sorted(metadata.items())))[:8] + "_" + str(ms)`
with `ms` the millisecond timestamp. -/
def genMemoryId (content : String) (md : List (String × MetaVal)) (ms : Nat) : String :=
  md5hex8 content ++ "_" ++ md5hex8 (metaStr md) ++ "_" ++ natRepr ms

/-- `OptimizedMemoryEngine._update_access_stats` (applied to the object the
caller holds). -/
def updateAccessStats (m : MemoryObj) (now : Nat) : MemoryObj :=
  { m with access_count := m.access_count + 1, last_accessed := some now }

/-- Bump helpers for the stats counters. -/
def bumpStores (s : CacheStats) : CacheStats := { s with stores := s.stores + 1 }

def bumpL1 (s : CacheStats) : CacheStats := { s with l1_hits := s.l1_hits + 1 }

def bumpL2 (s : CacheStats) : CacheStats := { s with l2_hits := s.l2_hits + 1 }

def bumpRedis (s : CacheStats) : CacheStats := { s with redis_hits := s.redis_hits + 1 }

def bumpMisses (s : CacheStats) : CacheStats := { s with misses := s.misses + 1 }

/-- The memory object `store_memory` assembles before caching. -/
def storeObj (content : String) (metadata : List (String × MetaVal))
    (agent_id : Option String) (now : Nat) : MemoryObj :=
  { id := genMemoryId content metadata now, content := content, metadata := metadata,
    agent_id := agent_id, timestamp := now, access_count := 0, last_accessed := none }

/-- `OptimizedMemoryEngine.store_memory`.  `now` stands for the clock
reading (millisecond ticks); an `Except.error` models the exception
re-raised by the source's handler, which leaves the engine state
untouched.  The Redis write happens only when a client exists
(`if self.redis_client:`) and swallows its own failures. -/
def storeMemory (cfg : MemoryConfig) (st : EngineState) (content : String)
    (metadata : List (String × MetaVal)) (agent_id : Option String) (now : Nat) :
    Except Unit (String × EngineState) :=
  match storeInCache cfg st (genMemoryId content metadata now)
      (storeObj content metadata agent_id now) with
  | none => .error ()
  | some st1 =>
    match st1.redis with
    | .absent =>
      .ok (genMemoryId content metadata now,
        { st1 with cache_stats := bumpStores st1.cache_stats })
    | a =>
      .ok (genMemoryId content metadata now,
        { st1 with
            redis := storeInRedis cfg a (genMemoryId content metadata now)
              (storeObj content metadata agent_id now),
            cache_stats := bumpStores st1.cache_stats })

/-- Redis leg of `retrieve_memory` (shared by the L2-miss and
L2-undecodable paths). -/
def retrieveFromRedis (cfg : MemoryConfig) (st : EngineState) (mid : String) (now : Nat) :
    Option MemoryObj × EngineState :=
  match st.redis with
  | .absent => (none, { st with cache_stats := bumpMisses st.cache_stats })
  | a =>
    match getFromRedis a mid with
    | some obj =>
      let stats2 := bumpRedis st.cache_stats
      let obj2 := updateAccessStats obj now
      (match storeInL1 cfg st.l1_cache mid obj2 with
       | none => (none, { st with cache_stats := stats2 })
       | some l1' =>
         (some obj2,
           { st with cache_stats := stats2, l1_cache := l1',
                     l2_cache := dictInsert st.l2_cache mid (compressMemory cfg obj) }))
    | none => (none, { st with cache_stats := bumpMisses st.cache_stats })

/-- `OptimizedMemoryEngine.retrieve_memory`: L1, then L2 (with promotion),
then Redis (with promotion into both tiers); the source catches every
exception and returns `None`, so a failed promotion leaves only the
already-incremented hit counter behind. -/
def retrieveMemory (cfg : MemoryConfig) (st : EngineState) (mid : String) (now : Nat) :
    Option MemoryObj × EngineState :=
  match lookupKey st.l1_cache mid with
  | some obj =>
    (some (updateAccessStats obj now),
      { st with l1_cache := moveToEnd st.l1_cache mid,
                cache_stats := bumpL1 st.cache_stats })
  | none =>
    match lookupKey st.l2_cache mid with
    | some data =>
      match decompressMemory data with
      | some obj =>
        let stats2 := bumpL2 st.cache_stats
        let obj2 := updateAccessStats obj now
        (match storeInL1 cfg st.l1_cache mid obj2 with
         | none => (none, { st with cache_stats := stats2 })
         | some l1' => (some obj2, { st with cache_stats := stats2, l1_cache := l1' }))
      | none => retrieveFromRedis cfg st mid now
    | none => retrieveFromRedis cfg st mid now

/-- Drop the `k` oldest entries — `k` repetitions of
`popitem(last=False)` guarded by non-emptiness. -/
def dropOldest {α : Type} : Nat → List α → List α
  | 0, l => l
  | k + 1, l =>
    match l with
    | [] => []
    | _ :: rest => dropOldest k rest

/-- `OptimizedMemoryEngine._aggressive_cleanup`: pop the oldest half of L1,
then delete the first quarter of L2's keys. -/
def aggressiveCleanup (st : EngineState) : EngineState :=
  let l1' := dropOldest (st.l1_cache.length / 2) st.l1_cache
  let keysToRemove := (st.l2_cache.map Prod.fst).take (st.l2_cache.length / 4)
  let l2' := keysToRemove.foldl (fun l k => eraseKey l k) st.l2_cache
  { st with l1_cache := l1', l2_cache := l2' }

/-! ### Lemmas about the dictionary model -/

theorem eraseKey_length_le {α : Type} (l : List (String × α)) (k : String) :
    (eraseKey l k).length ≤ l.length := by
  induction l with
  | nil => simp [eraseKey]
  | cons p rest ih =>
    obtain ⟨k', v⟩ := p
    by_cases h : k' = k
    · simp [eraseKey, h]
    · simp only [eraseKey, if_neg h, List.length_cons]
      omega

theorem odInsert_length_le {α : Type} (l : List (String × α)) (k : String) (v : α) :
    (odInsert l k v).length ≤ l.length + 1 := by
  have := eraseKey_length_le l k
  simp [odInsert]
  omega

theorem eraseKey_of_not_mem {α : Type} (l : List (String × α)) (k : String)
    (h : k ∉ l.map Prod.fst) : eraseKey l k = l := by
  induction l with
  | nil => rfl
  | cons p rest ih =>
    obtain ⟨k', v⟩ := p
    simp only [List.map_cons, List.mem_cons] at h
    push_neg at h
    have hne : k' ≠ k := fun hk => h.1 hk.symm
    simp [eraseKey, hne, ih h.2]

theorem not_mem_keys_eraseKey {α : Type} (l : List (String × α)) (k : String)
    (h : (l.map Prod.fst).Nodup) : k ∉ (eraseKey l k).map Prod.fst := by
  induction l with
  | nil => simp [eraseKey]
  | cons p rest ih =>
    obtain ⟨k', v⟩ := p
    simp only [List.map_cons, List.nodup_cons] at h
    by_cases hk : k' = k
    · subst hk
      simp [eraseKey, h.1]
    · simp only [eraseKey, if_neg hk, List.map_cons, List.mem_cons]
      push_neg
      exact ⟨fun hkk => hk hkk.symm, ih h.2⟩

theorem lookupKey_append_right {α : Type} (l1 l2 : List (String × α)) (k : String)
    (h : k ∉ l1.map Prod.fst) : lookupKey (l1 ++ l2) k = lookupKey l2 k := by
  induction l1 with
  | nil => rfl
  | cons p rest ih =>
    obtain ⟨k', v⟩ := p
    simp only [List.map_cons, List.mem_cons] at h
    push_neg at h
    have hne : k' ≠ k := fun hk => h.1 hk.symm
    simp [lookupKey, hne, ih h.2]

theorem lookupKey_odInsert {α : Type} (l : List (String × α)) (k : String) (v : α)
    (h : (l.map Prod.fst).Nodup) : lookupKey (odInsert l k v) k = some v := by
  rw [odInsert, lookupKey_append_right _ _ _ (not_mem_keys_eraseKey l k h)]
  simp [lookupKey]

theorem dropOldest_eq_drop {α : Type} (k : Nat) (l : List α) :
    dropOldest k l = l.drop k := by
  induction k generalizing l with
  | zero => rfl
  | succ k ih =>
    cases l with
    | nil => simp [dropOldest]
    | cons x rest => simp [dropOldest, ih]

theorem foldl_eraseKey_take {α : Type} (l : List (String × α)) :
    ∀ k, ((l.map Prod.fst).take k).foldl (fun acc key => eraseKey acc key) l = l.drop k := by
  induction l with
  | nil => intro k; simp
  | cons p rest ih =>
    intro k
    cases k with
    | zero => rfl
    | succ j =>
      obtain ⟨k', v⟩ := p
      simp only [List.map_cons, List.take_succ_cons, List.foldl_cons]
      have h1 : eraseKey ((k', v) :: rest) k' = rest := by simp [eraseKey]
      rw [h1, ih j]
      rfl

/-! ### Engine-level sequences of operations -/

/-- The arguments of one `store_memory` call (with its clock reading). -/
structure StoreOp where
  content : String
  metadata : List (String × MetaVal)
  agent_id : Option String
  now : Nat
deriving Repr, DecidableEq

/-- A freshly constructed engine: empty tiers, zero counters. -/
def initState (a : RedisAdapter) : EngineState :=
  { l1_cache := [], l2_cache := [], cache_stats := {}, redis := a }

/-- One `store_memory` call as a state transformer: an exception leaves the
engine state as the source left it (unchanged — the `StopIteration` fires
before any mutation). -/
def stepStore (cfg : MemoryConfig) (st : EngineState) (op : StoreOp) : EngineState :=
  match storeMemory cfg st op.content op.metadata op.agent_id op.now with
  | .ok (_, st') => st'
  | .error _ => st

theorem storeInL1_length_le (cfg : MemoryConfig) (l1 : List (String × MemoryObj))
    (k : String) (v : MemoryObj) (l1' : List (String × MemoryObj))
    (h : storeInL1 cfg l1 k v = some l1') (hle : l1.length ≤ cfg.local_cache_size) :
    l1'.length ≤ cfg.local_cache_size := by
  unfold storeInL1 at h
  by_cases hcl : cfg.local_cache_size ≤ l1.length
  · rw [if_pos hcl] at h
    cases l1 with
    | nil => exact absurd h (by simp)
    | cons x rest =>
      simp only [Option.some.injEq] at h
      subst h
      have := odInsert_length_le rest k v
      simp only [List.length_cons] at hle
      omega
  · rw [if_neg hcl] at h
    simp only [Option.some.injEq] at h
    subst h
    have := odInsert_length_le l1 k v
    omega

theorem stepStore_l1_le (cfg : MemoryConfig) (st : EngineState) (op : StoreOp)
    (h : st.l1_cache.length ≤ cfg.local_cache_size) :
    (stepStore cfg st op).l1_cache.length ≤ cfg.local_cache_size := by
  cases hl1 : storeInL1 cfg st.l1_cache (genMemoryId op.content op.metadata op.now)
      (storeObj op.content op.metadata op.agent_id op.now) with
  | none =>
    simp only [stepStore, storeMemory, storeInCache, hl1]
    exact h
  | some l1' =>
    have hle := storeInL1_length_le cfg _ _ _ _ hl1 h
    cases hr : st.redis <;>
      simp only [stepStore, storeMemory, storeInCache, hl1, hr] <;>
      exact hle

theorem foldl_stepStore_l1_le (cfg : MemoryConfig) (ops : List StoreOp) :
    ∀ st : EngineState, st.l1_cache.length ≤ cfg.local_cache_size →
      (ops.foldl (stepStore cfg) st).l1_cache.length ≤ cfg.local_cache_size := by
  induction ops with
  | nil => intro st h; simpa using h
  | cons op rest ih =>
    intro st h
    simp only [List.foldl_cons]
    exact ih _ (stepStore_l1_le cfg st op h)

/-- C2: for every finite sequence of store operations (any contents,
metadata, agents and clock readings, any adapter), Tier 1 never exceeds
`local_cache_size` after any prefix — witnessed here by the state after an
arbitrary such sequence from a fresh engine, which covers every prefix. -/
theorem c2_l1_capacity_invariant (cfg : MemoryConfig) (a : RedisAdapter)
    (ops : List StoreOp) :
    ((ops.foldl (stepStore cfg) (initState a)).l1_cache).length ≤ cfg.local_cache_size :=
  foldl_stepStore_l1_le cfg ops (initState a) (by simp [initState])

/-- What decompressing a compressed payload always yields: the payload
with its metadata passed through the dump/load cycle.  Both the zlib
branch and the raw branch of `_compress_memory` / `_decompress_memory`
land here. -/
theorem decompressMemory_compressMemory (cfg : MemoryConfig) (m : MemoryObj) :
    decompressMemory (compressMemory cfg m) = some (roundObj m) := by
  unfold compressMemory
  by_cases hth : cfg.compression_threshold < (jsonDumps m).length
  · rw [if_pos hth]
    show decompressMemory (zlibCompress (jsonDumps m)) = some (roundObj m)
    unfold decompressMemory
    rw [zlibDecompress_zlibCompress]
    exact jsonLoads_jsonDumps m
  · rw [if_neg hth]
    show decompressMemory (jsonDumps m) = some (roundObj m)
    have hz : zlibDecompress (jsonDumps m) = none := rfl
    unfold decompressMemory
    rw [hz]
    exact jsonLoads_jsonDumps m

theorem roundMeta_of_native (md : List (String × MetaVal))
    (h : ∀ kv ∈ md, (kv.2).isNative = true) : roundMeta md = md := by
  induction md with
  | nil => rfl
  | cons kv rest ih =>
    have hkv : (kv.2).isNative = true := h kv (List.mem_cons_self kv rest)
    have hrest : ∀ kv2 ∈ rest, (kv2.2).isNative = true :=
      fun kv2 hk => h kv2 (List.mem_cons_of_mem kv hk)
    have hr : roundMeta rest = rest := ih hrest
    calc roundMeta (kv :: rest) = (kv.1, roundVal kv.2) :: roundMeta rest := rfl
      _ = (kv.1, kv.2) :: rest := by rw [roundVal_of_isNative kv.2 hkv, hr]
      _ = kv :: rest := rfl

/-- C6 (amended): for every payload whose metadata values are
JSON-native (numbers, strings, lists), decompressing the result of
compressing it yields the original payload, in both the zlib-compressed
and the raw-serialized branch.  (Payloads carrying non-JSON-native
metadata do not round-trip; see the counterexample.) -/
theorem c6_compression_roundtrip_amended (cfg : MemoryConfig) (m : MemoryObj)
    (h : ∀ kv ∈ m.metadata, (kv.2).isNative = true) :
    decompressMemory (compressMemory cfg m) = some m := by
  rw [decompressMemory_compressMemory]
  have hro : roundObj m = m := by
    unfold roundObj
    rw [roundMeta_of_native m.metadata h]
  rw [hro]

/-- A payload whose metadata holds a Python tuple. -/
def objTup : MemoryObj :=
  { id := "i", content := "c", metadata := [(("k"), MetaVal.tup 1 2)],
    agent_id := none, timestamp := 0, access_count := 0, last_accessed := none }

/-- A payload whose metadata holds a datetime-like object (serialized
through `default=str`). -/
def objDt : MemoryObj :=
  { id := "i", content := "c", metadata := [(("t"), MetaVal.dt 5)],
    agent_id := none, timestamp := 0, access_count := 0, last_accessed := none }

/-- C6 (counterexample): the round trip is lossy on payloads with
non-JSON-native metadata — a tuple value comes back as a list and a
datetime value comes back as its `default=str` string, so
`decompress(compress(payload))` differs from the payload. -/
theorem c6_counterexample :
    decompressMemory (compressMemory ({} : MemoryConfig) objTup)
      = some { objTup with metadata := [(("k"), MetaVal.arr 1 2)] }
    ∧ some { objTup with metadata := [(("k"), MetaVal.arr 1 2)] } ≠ some objTup
    ∧ decompressMemory (compressMemory ({} : MemoryConfig) objDt)
      = some { objDt with metadata := [(("t"), MetaVal.str (dtRepr 5))] }
    ∧ some { objDt with metadata := [(("t"), MetaVal.str (dtRepr 5))] } ≠ some objDt := by
  refine ⟨?_, by decide, ?_, by decide⟩
  · rw [decompressMemory_compressMemory]
    rfl
  · rw [decompressMemory_compressMemory]
    rfl

/-- A payload with only JSON-native metadata values for the C6 witness. -/
def objNative : MemoryObj :=
  { id := "i", content := "c",
    metadata := [(("n"), MetaVal.num 3), (("s"), MetaVal.str ("v")), (("l"), MetaVal.arr 1 2)],
    agent_id := none, timestamp := 0, access_count := 0, last_accessed := none }

/-- C6 witness: the amended round-trip theorem applied to a concrete
payload with numeric, string and list metadata. -/
theorem c6_compression_roundtrip_witness :
    decompressMemory (compressMemory ({} : MemoryConfig) objNative) = some objNative :=
  c6_compression_roundtrip_amended ({} : MemoryConfig) objNative (by decide)

/-- C7 (amended): aggressive cleanup removes exactly the ⌊n/2⌋ oldest
entries of Tier 1 and the ⌊n/4⌋ oldest entries of Tier 2, so the tiers
keep ⌈n/2⌉ and n − ⌊n/4⌋ entries — at most 50% / 75% only after rounding
up. -/
theorem c7_aggressive_cleanup_amended (st : EngineState) :
    (aggressiveCleanup st).l1_cache = st.l1_cache.drop (st.l1_cache.length / 2)
    ∧ (aggressiveCleanup st).l2_cache = st.l2_cache.drop (st.l2_cache.length / 4)
    ∧ (aggressiveCleanup st).l1_cache.length
        = st.l1_cache.length - st.l1_cache.length / 2
    ∧ (aggressiveCleanup st).l2_cache.length
        = st.l2_cache.length - st.l2_cache.length / 4 := by
  have h1 : (aggressiveCleanup st).l1_cache = st.l1_cache.drop (st.l1_cache.length / 2) := by
    simp [aggressiveCleanup, dropOldest_eq_drop]
  have h2 : (aggressiveCleanup st).l2_cache = st.l2_cache.drop (st.l2_cache.length / 4) := by
    simp [aggressiveCleanup, foldl_eraseKey_take]
  refine ⟨h1, h2, ?_, ?_⟩ <;> simp [h1, h2]

/-- A minimal concrete memory object for counterexample states. -/
def sampleObj (i : String) : MemoryObj :=
  { id := i, content := i, metadata := [], agent_id := none, timestamp := 0,
    access_count := 0, last_accessed := none }

/-- A pre-cleanup state with three Tier-1 entries and four Tier-2 entries. -/
def c7State : EngineState :=
  { l1_cache := [("a", sampleObj ("a")), ("b", sampleObj ("b")), ("c", sampleObj ("c"))],
    l2_cache := [("a", ['x']), ("b", ['x']), ("c", ['x']), ("d", ['x']), ("e", ['x'])],
    cache_stats := {}, redis := .absent }

/-- C7 (counterexample): with 3 entries in Tier 1 and 5 in Tier 2,
aggressive cleanup keeps 2 and 4 entries — more than 50% resp. 75% of the
pre-cleanup counts, refuting the claimed bounds. -/
theorem c7_counterexample :
    c7State.l1_cache.length = 3
    ∧ c7State.l2_cache.length = 5
    ∧ (aggressiveCleanup c7State).l1_cache.length = 2
    ∧ (aggressiveCleanup c7State).l2_cache.length = 4
    ∧ ¬((aggressiveCleanup c7State).l1_cache.length * 2 ≤ c7State.l1_cache.length)
    ∧ ¬((aggressiveCleanup c7State).l2_cache.length * 4 ≤ c7State.l2_cache.length * 3) := by
  decide

/-! ### C1: the Tier-1 eviction rule -/

/-- Importance of a Tier-1 entry as the spec's eviction tie-break refers to
it.  This is a spec-side notion: the optimizer's cache entries carry
importance only through caller-supplied metadata, and
`_store_in_l1_cache` never reads it. -/
def specTier1Importance (m : MemoryObj) : Option MetaVal :=
  lookupKey m.metadata ("importance")

/-- C1 (amended): a put of a new key into a full Tier 1 evicts exactly one
entry — the front of the recency order (the least-recently
inserted/accessed one) — and appends the new entry at the back; the
entries' importance and timestamps are never consulted. -/
theorem c1_eviction_order_amended (cfg : MemoryConfig) (l1 : List (String × MemoryObj))
    (k : String) (v : MemoryObj) (hlen : l1.length = cfg.local_cache_size)
    (hpos : 1 ≤ cfg.local_cache_size) (hnew : k ∉ l1.map Prod.fst) :
    storeInL1 cfg l1 k v = some (l1.tail ++ [(k, v)]) := by
  cases l1 with
  | nil => simp at hlen; omega
  | cons x rest =>
    have hcl : cfg.local_cache_size ≤ (x :: rest).length := le_of_eq hlen.symm
    simp only [storeInL1, if_pos hcl]
    simp only [List.map_cons, List.mem_cons] at hnew
    push_neg at hnew
    rw [odInsert, eraseKey_of_not_mem rest k hnew.2]
    rfl

/-- Engine configuration with a Tier-1 capacity of 2. -/
def cfg2 : MemoryConfig := { local_cache_size := 2 }

/-- Tier-1 entry of importance 0.9 (as metadata percent), never accessed. -/
def objHigh : MemoryObj :=
  { id := "A", content := "alpha", metadata := [(("importance"), MetaVal.num 90)], agent_id := none,
    timestamp := 100, access_count := 0, last_accessed := none }

/-- Tier-1 entry of importance 0.1, equally recent (same creation tick,
also never accessed). -/
def objLow : MemoryObj :=
  { id := "B", content := "beta", metadata := [(("importance"), MetaVal.num 10)], agent_id := none,
    timestamp := 100, access_count := 0, last_accessed := none }

/-- The entry whose put triggers the eviction. -/
def objNew : MemoryObj :=
  { id := "C", content := "gamma", metadata := [], agent_id := none,
    timestamp := 100, access_count := 0, last_accessed := none }

/-- C1 (counterexample): with Tier 1 full of two equally recent entries
(identical timestamps, never accessed), the put evicts the front entry
`A` even though its importance (0.9) is strictly higher than `B`'s (0.1);
the claimed lowest-importance tie-break would have evicted `B`. -/
theorem c1_counterexample :
    storeInL1 cfg2 [("A", objHigh), ("B", objLow)] ("C") objNew
      = some [("B", objLow), ("C", objNew)]
    ∧ objHigh.timestamp = objLow.timestamp
    ∧ objHigh.last_accessed = objLow.last_accessed
    ∧ specTier1Importance objHigh = some (MetaVal.num 90)
    ∧ specTier1Importance objLow = some (MetaVal.num 10)
    ∧ ¬(90 ≤ (10 : Nat)) := by
  decide

/-- C1 witness: the amended eviction theorem applied at a concrete full
cache. -/
theorem c1_eviction_order_witness :
    storeInL1 cfg2 [("A", objHigh), ("B", objLow)] ("C") objNew
      = some ([("A", objHigh), ("B", objLow)].tail ++ [(("C"), objNew)]) :=
  c1_eviction_order_amended cfg2 [("A", objHigh), ("B", objLow)] ("C") objNew
    (by decide) (by decide) (by decide)

/-! ### C10: id generation -/

theorem string_data_append (a b : String) : (a ++ b).data = a.data ++ b.data := rfl

/-- The serialized form of a generated id: two fixed-length 8-character
digests separated by underscores, then the decimal timestamp. -/
theorem genMemoryId_data (c : String) (md : List (String × MetaVal)) (ms : Nat) :
    (genMemoryId c md ms).data =
      (md5hex8 c).data ++ '_' :: ((md5hex8 (metaStr md)).data ++ '_' :: natDigits ms) := by
  show ((((md5hex8 c ++ "_") ++ md5hex8 (metaStr md)) ++ "_") ++ natRepr ms).data = _
  simp only [string_data_append]
  rw [show (natRepr ms).data = natDigits ms from rfl]
  simp [List.append_assoc]

/-- C10 (amended): the ids assigned by two store operations are distinct
whenever the operations carry different millisecond clock readings —
regardless of contents and metadata; stores in the same millisecond with
identical content and metadata reuse the id (see the counterexample). -/
theorem c10_id_distinct_amended (c1 c2 : String) (md1 md2 : List (String × MetaVal))
    (ms1 ms2 : Nat) (hms : ms1 ≠ ms2) :
    genMemoryId c1 md1 ms1 ≠ genMemoryId c2 md2 ms2 := by
  intro heq
  have hdata := congrArg String.data heq
  rw [genMemoryId_data, genMemoryId_data] at hdata
  have hlen1 : (md5hex8 c1).data.length = (md5hex8 c2).data.length := by
    rw [md5hex8_length, md5hex8_length]
  obtain ⟨-, htail⟩ := List.append_inj hdata hlen1
  injection htail with h1 htail2
  have hlen2 : (md5hex8 (metaStr md1)).data.length = (md5hex8 (metaStr md2)).data.length := by
    rw [md5hex8_length, md5hex8_length]
  obtain ⟨-, htail3⟩ := List.append_inj htail2 hlen2
  injection htail3 with h2 htail4
  exact hms (natDigits_injective htail4)

/-- C10 witness: the amended distinctness theorem at two concrete clock
readings. -/
theorem c10_id_distinct_witness :
    genMemoryId ("hello") [] 5 ≠ genMemoryId ("hello") [] 6 :=
  c10_id_distinct_amended ("hello") ("hello") [] [] 5 6 (by decide)

/-- First store: the fresh engine (no Redis client). -/
def c10St0 : EngineState := initState .absent

/-- State after a first `store_memory("hello")` at clock reading 5. -/
def c10St1 : EngineState :=
  match storeMemory {} c10St0 ("hello") [] none 5 with
  | .ok (_, s) => s
  | .error _ => c10St0

/-- C10 (counterexample): two distinct store operations — the second runs
on the state the first produced — with identical content and metadata in
the same millisecond are both assigned the same id, so ids are reused. -/
theorem c10_counterexample :
    (storeMemory {} c10St0 ("hello") [] none 5).toOption.map Prod.fst = some (genMemoryId ("hello") [] 5)
    ∧ (storeMemory {} c10St1 ("hello") [] none 5).toOption.map Prod.fst = some (genMemoryId ("hello") [] 5) := by
  constructor
  · rfl
  · rfl

/-! ### C9: degradation under a failing durable-store adapter -/

/-- The id a successful store returned. -/
def storeOkId (r : Except Unit (String × EngineState)) : Option String :=
  r.toOption.map Prod.fst

/-- The engine state a successful store produced. -/
def storeOkState (r : Except Unit (String × EngineState)) : Option EngineState :=
  r.toOption.map Prod.snd

theorem storeInL1_full_spec (cfg : MemoryConfig) (l1 : List (String × MemoryObj))
    (k : String) (v : MemoryObj) (hcap : 1 ≤ cfg.local_cache_size)
    (hnodup : (l1.map Prod.fst).Nodup) :
    ∃ l1', storeInL1 cfg l1 k v = some l1' ∧ lookupKey l1' k = some v := by
  by_cases hcl : cfg.local_cache_size ≤ l1.length
  · cases l1 with
    | nil => simp at hcl; omega
    | cons x rest =>
      refine ⟨odInsert rest k v, by simp only [storeInL1]; rw [if_pos hcl], ?_⟩
      apply lookupKey_odInsert
      simp only [List.map_cons, List.nodup_cons] at hnodup
      exact hnodup.2
  · exact ⟨odInsert l1 k v, by simp [storeInL1, hcl], lookupKey_odInsert _ _ _ hnodup⟩

/-- C9 (amended): when every durable-store call fails, `store_memory`
still succeeds — returning the same id and producing the same Tier-1,
Tier-2 and stats-counter state as with no Redis client at all (the
failure is only logged: no counter records it) — and an immediate
`retrieve_memory` of the stored id succeeds from Tier 1. -/
theorem c9_adapter_failure_amended (cfg : MemoryConfig) (st : EngineState)
    (c : String) (md : List (String × MetaVal)) (aid : Option String) (now now2 : Nat)
    (hcap : 1 ≤ cfg.local_cache_size) (hfail : st.redis = .failing)
    (hnodup : (st.l1_cache.map Prod.fst).Nodup) :
    (storeMemory cfg st c md aid now).isOk = true
    ∧ storeOkId (storeMemory cfg st c md aid now)
        = storeOkId (storeMemory cfg { st with redis := .absent } c md aid now)
    ∧ (storeOkState (storeMemory cfg st c md aid now)).map EngineState.l1_cache
        = (storeOkState (storeMemory cfg { st with redis := .absent } c md aid now)).map
            EngineState.l1_cache
    ∧ (storeOkState (storeMemory cfg st c md aid now)).map EngineState.l2_cache
        = (storeOkState (storeMemory cfg { st with redis := .absent } c md aid now)).map
            EngineState.l2_cache
    ∧ (storeOkState (storeMemory cfg st c md aid now)).map EngineState.cache_stats
        = (storeOkState (storeMemory cfg { st with redis := .absent } c md aid now)).map
            EngineState.cache_stats
    ∧ (storeOkState (storeMemory cfg st c md aid now)).map
        (fun s => ((retrieveMemory cfg s (genMemoryId c md now) now2).1).map MemoryObj.content)
        = some (some c) := by
  obtain ⟨l1', hl1, hlook⟩ := storeInL1_full_spec cfg st.l1_cache (genMemoryId c md now)
    (storeObj c md aid now) hcap hnodup
  have hC : storeInCache cfg st (genMemoryId c md now) (storeObj c md aid now)
      = some { st with l1_cache := l1',
                       l2_cache := dictInsert st.l2_cache (genMemoryId c md now)
                         (compressMemory cfg (storeObj c md aid now)) } := by
    simp [storeInCache, hl1]
  have hCabs : storeInCache cfg { st with redis := .absent } (genMemoryId c md now)
      (storeObj c md aid now)
      = some { st with redis := .absent, l1_cache := l1',
                       l2_cache := dictInsert st.l2_cache (genMemoryId c md now)
                         (compressMemory cfg (storeObj c md aid now)) } := by
    simp [storeInCache, hl1]
  have hcontent : ∀ t, (updateAccessStats (storeObj c md aid now) t).content = c := fun _ => rfl
  refine ⟨?_, ?_, ?_, ?_, ?_, ?_⟩ <;>
    simp [storeMemory, hC, hCabs, hfail, storeInRedis, storeOkId, storeOkState,
      retrieveMemory, hlook, hcontent, Except.isOk, Except.toBool, Except.toOption]

/-- A failing-adapter engine state for the C9 witness. -/
def c9WSt : EngineState :=
  { l1_cache := [], l2_cache := [], cache_stats := {}, redis := .failing }

/-- C9 witness: the degradation theorem applied at a concrete failing
adapter state — the store succeeds. -/
theorem c9_adapter_failure_witness :
    (storeMemory cfg2 c9WSt ("hello") [] none 5).isOk = true :=
  (c9_adapter_failure_amended cfg2 c9WSt ("hello") [] none 5 6
    (by decide) rfl (by decide)).1

/-- A working-adapter engine state (empty in-memory Redis). -/
def c9OkSt : EngineState :=
  { l1_cache := [], l2_cache := [], cache_stats := {}, redis := .ok [] [] }

/-- C9 (counterexample): the stats counters after a store whose Redis
write failed are identical to the stats counters after the same store
with a fully working Redis — the adapter failure is *not* surfaced in the
stats counters (only logged), refuting that part of the claim. -/
theorem c9_counterexample :
    (storeOkState (storeMemory {} c9WSt ("hello") [] none 5)).map EngineState.cache_stats
      = (storeOkState (storeMemory {} c9OkSt ("hello") [] none 5)).map EngineState.cache_stats
    ∧ ((storeOkState (storeMemory {} c9WSt ("hello") [] none 5)).map
        EngineState.cache_stats).isSome = true := by
  constructor
  · decide
  · decide

end MemOpt

namespace UMem

open MemOpt

/-- `MemoryEntry` from `universal_memory.py`.  The `MemoryType` /
`FrameworkType` enums are modelled by their `.value` strings; floats by
`ℚ`; timestamps by `Nat` ticks; the optional embedding is not modelled
(no claim touches it). -/
structure MemoryEntry where
  id : String
  content : String
  memory_type : String
  framework : String
  concepts : List String
  importance : ℚ
  metadata : List (String × String)
  created_at : Nat
  updated_at : Nat
deriving Repr, DecidableEq

/-- The `stats` dict of `UniversalMemory`. -/
structure UStats where
  memories_stored : Nat := 0
  memories_retrieved : Nat := 0
  consolidations_performed : Nat := 0
  cache_hits : Nat := 0
  cache_misses : Nat := 0
deriving Repr, DecidableEq

/-- The facade's mutable state: its Redis cache (keys to cached entries;
TTLs not modelled) and the stats counters. -/
structure UState where
  redisCache : List (String × MemoryEntry)
  stats : UStats
deriving Repr, DecidableEq

/-- The `MemoryEntry` that `UniversalMemory.store_memory` constructs
before dispatching — note: the importance argument is copied in verbatim,
with no validation anywhere. -/
def mkEntry (content memory_type framework : String) (concepts : List String)
    (importance : ℚ) (metadata : List (String × String)) (now : Nat) : MemoryEntry :=
  { id := "", content := content, memory_type := memory_type, framework := framework,
    concepts := concepts, importance := importance, metadata := metadata,
    created_at := now, updated_at := now }

/-- Stats bump for `memories_stored`. -/
def bumpStored (s : UStats) : UStats :=
  { s with memories_stored := s.memories_stored + 1 }

/-- `UniversalMemory.store_memory`: build the entry, dispatch by type
(semantic and episodic go to the store API, working gets a timestamp id
and a Redis copy), bump the counter, cache under `memory:{id}`.  `api`
models the external AgentOS store endpoint assigning the id; its error is
re-raised.  There is no importance validation on any path. -/
def storeMemory (api : MemoryEntry → Except String String) (st : UState)
    (content memory_type framework : String) (concepts : List String)
    (importance : ℚ) (metadata : List (String × String)) (now : Nat) :
    Except String (String × UState) :=
  match (if memory_type = "working"
         then Except.ok ("working_" ++ natRepr now)
         else api (mkEntry content memory_type framework concepts importance metadata now)) with
  | .error e => .error e
  | .ok mid =>
    let stored := { mkEntry content memory_type framework concepts importance metadata now
                    with id := mid }
    let base :=
      if memory_type = "working" then
        { st with redisCache :=
            (dictInsert st.redisCache ("working_memory:" ++ framework ++ ":" ++ mid) stored) }
      else st
    .ok (mid,
      { redisCache := dictInsert base.redisCache ("memory:" ++ mid) stored,
        stats := bumpStored base.stats })

theorem lookupKey_dictInsert {α : Type} (l : List (String × α)) (k : String) (v : α) :
    lookupKey (dictInsert l k v) k = some v := by
  induction l with
  | nil => simp [dictInsert, lookupKey]
  | cons p rest ih =>
    obtain ⟨k', v'⟩ := p
    by_cases h : k' = k
    · simp [dictInsert, lookupKey, h]
    · simp [dictInsert, lookupKey, h, ih]

/-- C8 (amended): the facade performs no importance validation: for every
importance value — including values outside [0,1] — a store whose backing
API call succeeds returns the assigned id, increments the stored counter,
and caches the entry with exactly the supplied importance. -/
theorem c8_no_importance_validation_amended
    (api : MemoryEntry → Except String String) (st : UState)
    (content framework : String) (concepts : List String) (importance : ℚ)
    (metadata : List (String × String)) (now : Nat) (mid : String)
    (hapi : api (mkEntry content ("semantic") framework concepts importance metadata now)
      = .ok mid) :
    storeMemory api st content ("semantic") framework concepts importance metadata now
      = .ok (mid,
          { redisCache := dictInsert st.redisCache ("memory:" ++ mid)
              { mkEntry content ("semantic") framework concepts importance metadata now
                with id := mid },
            stats := bumpStored st.stats })
    ∧ (lookupKey (dictInsert st.redisCache ("memory:" ++ mid)
          { mkEntry content ("semantic") framework concepts importance metadata now
            with id := mid }) ("memory:" ++ mid)).map MemoryEntry.importance
        = some importance := by
  constructor
  · simp [storeMemory, hapi]
  · rw [lookupKey_dictInsert]
    rfl

/-- A store API stub assigning the id `m1`. -/
def apiM1 : MemoryEntry → Except String String := fun _ => .ok ("m1")

/-- The fresh facade state. -/
def ust0 : UState := { redisCache := [], stats := {} }

/-- C8 witness: the no-validation theorem applied at importance 2. -/
theorem c8_no_importance_validation_witness :
    storeMemory apiM1 ust0 ("c") ("semantic") ("universal") [] (2 : ℚ) [] 7
      = .ok (("m1"),
          { redisCache := dictInsert ust0.redisCache ("memory:" ++ "m1")
              { mkEntry ("c") ("semantic") ("universal") [] (2 : ℚ) [] 7 with id := "m1" },
            stats := bumpStored ust0.stats }) :=
  (c8_no_importance_validation_amended apiM1 ust0 ("c") ("universal") [] (2 : ℚ) [] 7
    ("m1") rfl).1

/-- C8 (counterexample): a store with importance 2 — outside [0,1] — is
not rejected: it succeeds, touches the cache tier (the entry is cached
with importance 2), and no validation error is raised anywhere. -/
theorem c8_counterexample :
    (storeMemory apiM1 ust0 ("c") ("semantic") ("universal") [] (2 : ℚ) [] 7).isOk = true
    ∧ ((storeMemory apiM1 ust0 ("c") ("semantic") ("universal") [] (2 : ℚ) [] 7).toOption.map
        (fun p => (lookupKey p.2.redisCache ("memory:m1")).map MemoryEntry.importance))
        = some (some (2 : ℚ))
    ∧ ¬((2 : ℚ) ≤ 1) := by
  refine ⟨by decide, by decide, by decide⟩

end UMem

namespace Consol

open MemOpt UMem

/-- `MemoryPattern` from `consolidation_engine.py` (floats as `ℚ`). -/
structure MemoryPattern where
  pattern_type : String
  description : String
  confidence : ℚ
  supporting_memories : List String
  extracted_knowledge : String
  concepts : List String
deriving Repr, DecidableEq

/-- First-occurrence deduplication — the iteration order Python sets and
`Counter` keys inherit from insertion. -/
def firstDedup (l : List String) : List String :=
  l.foldl (fun acc x => if x ∈ acc then acc else acc ++ [x]) []

/-- Stable-ascending insertion by `created_at` (Python `sorted` is
stable). -/
def insertByCreated (m : MemoryEntry) : List MemoryEntry → List MemoryEntry
  | [] => [m]
  | x :: xs =>
    if m.created_at ≤ x.created_at then m :: x :: xs else x :: insertByCreated m xs

/-- `sorted(memories, key=lambda m: m.created_at)`. -/
def sortByCreated (ms : List MemoryEntry) : List MemoryEntry :=
  ms.foldr insertByCreated []

/-- The distinct concepts shared by two records —
`set(a.concepts) & set(b.concepts)`, in first-occurrence order of `a`
(Python set iteration order is unspecified; only the count and the
members matter to the source). -/
def commonConcepts (a b : MemoryEntry) : List String :=
  firstDedup (a.concepts.filter (fun c => c ∈ b.concepts))

/-- The temporal-pattern confidence formula
`0.7 + len(common_concepts) * 0.1`. -/
def temporalConfidence (k : Nat) : ℚ := 7 / 10 + (k : ℚ) * (1 / 10)

/-- `MemoryConsolidationEngine._find_temporal_patterns`: adjacent pairs of
the time-sorted batch within one hour sharing at least one concept. -/
def findTemporalPatterns (ms : List MemoryEntry) : List MemoryPattern :=
  ((sortByCreated ms).zip (sortByCreated ms).tail).filterMap (fun pr =>
    if pr.2.created_at - pr.1.created_at < 3600 then
      (if commonConcepts pr.1 pr.2 ≠ [] then
        some { pattern_type := "temporal",
               description := "Sequential pattern: " ++ pr.1.content.take 50
                 ++ "... → " ++ pr.2.content.take 50 ++ "...",
               confidence := temporalConfidence (commonConcepts pr.1 pr.2).length,
               supporting_memories := [pr.1.id, pr.2.id],
               extracted_knowledge := "When " ++ (commonConcepts pr.1 pr.2).headD ""
                 ++ " occurs, it often leads to related activities",
               concepts := commonConcepts pr.1 pr.2 }
      else none)
    else none)

/-- `str.lower()` modelled on the character list (`String.toLower` itself
is not kernel-reducible). -/
def strLower (s : String) : String := String.mk (s.data.map Char.toLower)

/-- `str.strip()` modelled on the character list. -/
def strStrip (s : String) : String :=
  String.mk (((s.data.dropWhile Char.isWhitespace).reverse.dropWhile
    Char.isWhitespace).reverse)

/-- The four causal regex templates, modelled by their literal connective:
`re.findall` on a two-group template is modelled as splitting the content
at the first occurrence of the connective into two nonempty groups. -/
def causalConnectives : List String :=
  ["because of ", " led to ", "as a result of ", " caused "]

/-- Split at the first occurrence of a literal pattern. -/
def findSplit (pat : List Char) : List Char → Option (List Char × List Char)
  | [] => none
  | c :: rest =>
    if pat.isPrefixOf (c :: rest) then some ([], (c :: rest).drop pat.length)
    else (findSplit pat rest).map (fun p => (c :: p.1, p.2))

/-- Matches of one causal template against lowercased content. -/
def templateMatches (conn : String) (content : List Char) : List (String × String) :=
  match findSplit conn.data content with
  | some (pre, post) =>
    if pre ≠ [] ∧ post ≠ [] then [(String.mk pre, String.mk post)] else []
  | none => []

/-- `MemoryConsolidationEngine._find_causal_patterns`: each template match
yields a causal pattern with fixed confidence 0.8. -/
def findCausalPatterns (ms : List MemoryEntry) : List MemoryPattern :=
  ms.flatMap (fun m => causalConnectives.flatMap (fun conn =>
    (templateMatches conn (strLower m.content).data).map (fun ce =>
      { pattern_type := "causal",
        description := "Causal relationship: " ++ ce.1 ++ " → " ++ ce.2,
        confidence := 4 / 5,
        supporting_memories := [m.id],
        extracted_knowledge := "Understanding: " ++ ce.1 ++ " typically results in " ++ ce.2,
        concepts := [strStrip ce.1, strStrip ce.2] })))

/-- Occurrence count (`Counter`). -/
def countIn (l : List String) (c : String) : Nat := l.count c

/-- Stable-descending insertion by occurrence count (ties keep
first-occurrence order, as `Counter.most_common` does). -/
def insertDescBy (all : List String) (x : String) : List String → List String
  | [] => [x]
  | y :: ys =>
    if countIn all y ≤ countIn all x then x :: y :: ys else y :: insertDescBy all x ys

/-- `Counter(all).most_common(5)` keys. -/
def mostCommon5 (all : List String) : List String :=
  (((firstDedup all).foldr (insertDescBy all) []).take 5)

/-- The `common_concepts` of one group: concepts appearing with count ≥ 2
among the group's top-5 most frequent co-occurring concepts. -/
def conceptCommon (g : String × List MemoryEntry) : List String :=
  (mostCommon5 (g.2.flatMap (fun m => m.concepts))).filter
    (fun c => 2 ≤ countIn (g.2.flatMap (fun m => m.concepts)) c)

/-- `MemoryConsolidationEngine._find_conceptual_patterns` over the concept
groups: groups of ≥ 3 records whose top-5 co-occurring concepts contain
at least two with count ≥ 2. -/
def findConceptualPatterns (groups : List (String × List MemoryEntry)) :
    List MemoryPattern :=
  groups.filterMap (fun g =>
    if 3 ≤ g.2.length then
      (if 2 ≤ (conceptCommon g).length then
        some { pattern_type := "conceptual",
               description := "Conceptual cluster around '" ++ g.1
                 ++ "' with related concepts: "
                 ++ String.intercalate ", " ((conceptCommon g).take 3),
               confidence := 3 / 5 + min ((g.2.length : ℚ) * (1 / 10)) (3 / 10),
               supporting_memories := g.2.map (fun m => m.id),
               extracted_knowledge := "Knowledge domain: " ++ g.1
                 ++ " is associated with " ++ String.intercalate ", " ((conceptCommon g).take 3),
               concepts := conceptCommon g }
       else none)
    else none)

/-- The decision/action words of `_find_behavioral_patterns`. -/
def actionWords : List String := ["decided", "chose", "selected", "did"]

/-- Substring occurrence, via the first-occurrence splitter. -/
def containsSub (pat s : List Char) : Bool := (findSplit pat s).isSome

/-- `any(word in content.lower() for word in [...])`. -/
def hasActionWord (content : String) : Bool :=
  actionWords.any (fun w => containsSub w.data (strLower content).data)

/-- Members of one defaultdict group, with the multiplicity Python's
repeated `append` produces. -/
def groupFor (ms : List MemoryEntry) (c : String) : List MemoryEntry :=
  ms.flatMap (fun m => (m.concepts.filter (fun x => x = c)).map (fun _ => m))

/-- `MemoryConsolidationEngine._find_behavioral_patterns`: concepts shared
by ≥ 2 action-bearing records, fixed confidence 0.7. -/
def findBehavioralPatterns (ms : List MemoryEntry) : List MemoryPattern :=
  (firstDedup ((ms.filter (fun m => hasActionWord m.content)).flatMap
      (fun m => m.concepts))).filterMap (fun a =>
    if 2 ≤ (groupFor (ms.filter (fun m => hasActionWord m.content)) a).length then
      some { pattern_type := "behavioral",
             description := "Behavioral pattern: repeated actions related to '" ++ a ++ "'",
             confidence := 7 / 10,
             supporting_memories :=
               (groupFor (ms.filter (fun m => hasActionWord m.content)) a).map
                 (fun m => m.id),
             extracted_knowledge := "Behavioral insight: tendency to engage with "
               ++ a ++ " in similar contexts",
             concepts := [a] }
    else none)

/-- The per-concept groups `_identify_patterns` builds before conceptual
analysis (keys in first-appearance order, members with multiplicity). -/
def conceptGroups (ms : List MemoryEntry) : List (String × List MemoryEntry) :=
  (firstDedup (ms.flatMap (fun m => m.concepts))).map (fun c => (c, groupFor ms c))

/-- Stable-descending insertion of a pattern by confidence. -/
def insertPatternDesc (p : MemoryPattern) : List MemoryPattern → List MemoryPattern
  | [] => [p]
  | q :: qs =>
    if q.confidence ≤ p.confidence then p :: q :: qs else q :: insertPatternDesc p qs

/-- `patterns.sort(key=confidence, reverse=True)` (stable). -/
def sortPatternsDesc (ps : List MemoryPattern) : List MemoryPattern :=
  ps.foldr insertPatternDesc []

/-- `MemoryConsolidationEngine._identify_patterns`: run the four finders,
keep confidence ≥ 0.6, sort descending, cap at 10. -/
def identifyPatterns (ms : List MemoryEntry) : List MemoryPattern :=
  (sortPatternsDesc ((findTemporalPatterns ms ++ findCausalPatterns ms
    ++ findConceptualPatterns (conceptGroups ms)
    ++ findBehavioralPatterns ms).filter (fun p => (3 : ℚ) / 5 ≤ p.confidence))).take 10

/-- `ConsolidationResult` from `universal_memory.py` (datetimes as `Nat`
ticks, framework as its `.value` string). -/
structure ConsolidationResult where
  consolidation_id : String
  framework : String
  episodic_count : Nat
  semantic_count : Nat
  consolidation_score : ℚ
  patterns_found : List String
  new_memories_created : Nat
  started_at : Nat
  completed_at : Nat
deriving Repr, DecidableEq

/-- The semantic-memory dict `_extract_semantic_knowledge` builds (its
`metadata` sub-dict flattened into `meta_*` fields). -/
structure SemanticMemory where
  content : String
  concepts : List String
  importance : ℚ
  framework : String
  source_type : String
  meta_pattern_type : String
  meta_confidence : ℚ
  meta_supporting : List String
deriving Repr, DecidableEq

/-- `MemoryConsolidationEngine._extract_semantic_knowledge`: one semantic
memory per pattern, importance clamped to `min(confidence, 1.0)`. -/
def extractSemanticKnowledge (patterns : List MemoryPattern) (fw : String) :
    List SemanticMemory :=
  patterns.map (fun p =>
    { content := p.extracted_knowledge, concepts := p.concepts,
      importance := min p.confidence 1, framework := fw,
      source_type := "consolidation", meta_pattern_type := p.pattern_type,
      meta_confidence := p.confidence, meta_supporting := p.supporting_memories })

/-- `MemoryConsolidationEngine._calculate_consolidation_score`: average
confidence plus diversity and extraction bonuses, capped at 1. -/
def calculateConsolidationScore (patterns : List MemoryPattern)
    (sems : List SemanticMemory) : ℚ :=
  if patterns.isEmpty then 0
  else
    min ((patterns.map (fun p => p.confidence)).sum / (patterns.length : ℚ)
      + ((firstDedup (patterns.map (fun p => p.pattern_type))).length : ℚ) * (1 / 10)
      + (sems.length : ℚ) * (1 / 20)) 1

/-- `MemoryConsolidationEngine.consolidate_framework_memories`, given the
already-retrieved episodic batch (`_get_episodic_memories` is an external
HTTP call; the batch is a parameter).  `storeApi` models the semantic
store endpoint; its failure propagates, as the source re-raises.  The
small-batch guard returns the zero-effect result without touching any
API. -/
def consolidateFrameworkMemories (storeApi : SemanticMemory → Except String String)
    (fw : String) (episodic : List MemoryEntry) (nowT : Nat) :
    Except String ConsolidationResult :=
  if episodic.length < 2 then
    .ok { consolidation_id := "consolidation_" ++ fw ++ "_" ++ natRepr nowT,
          framework := fw, episodic_count := episodic.length, semantic_count := 0,
          consolidation_score := 0, patterns_found := [], new_memories_created := 0,
          started_at := nowT, completed_at := nowT }
  else
    match (extractSemanticKnowledge (identifyPatterns episodic) fw).mapM storeApi with
    | .error e => .error e
    | .ok ids =>
      .ok { consolidation_id := "consolidation_" ++ fw ++ "_" ++ natRepr nowT,
            framework := fw, episodic_count := episodic.length,
            semantic_count := (extractSemanticKnowledge (identifyPatterns episodic) fw).length,
            consolidation_score :=
              calculateConsolidationScore (identifyPatterns episodic)
                (extractSemanticKnowledge (identifyPatterns episodic) fw),
            patterns_found := (identifyPatterns episodic).map (fun p => p.description),
            new_memories_created := ids.length,
            started_at := nowT, completed_at := nowT }

/-- The patterns a given memory id supports (`memory_pattern_map`). -/
def supportingPatterns (patterns : List MemoryPattern) (mid : String) :
    List MemoryPattern :=
  patterns.filter (fun p => mid ∈ p.supporting_memories)

/-- `importance_boost = sum(p.confidence * 0.1 for p in supporting)`. -/
def importanceBoost (patterns : List MemoryPattern) (mid : String) : ℚ :=
  ((supportingPatterns patterns mid).map (fun p => p.confidence * (1 / 10))).sum

/-- `new_importance = min(memory.importance + importance_boost, 1.0)`. -/
def newImportance (m : MemoryEntry) (patterns : List MemoryPattern) : ℚ :=
  min (m.importance + importanceBoost patterns m.id) 1

/-- `MemoryConsolidationEngine._update_memory_importance`: the importance
updates issued (one per episodic record supporting at least one pattern),
as (memory id, new importance) pairs in batch order. -/
def updateMemoryImportance (memories : List MemoryEntry)
    (patterns : List MemoryPattern) : List (String × ℚ) :=
  (memories.filter (fun m => !(supportingPatterns patterns m.id).isEmpty)).map
    (fun m => (m.id, newImportance m patterns))

/-! ### C3, C4, C5 -/

theorem temporalConfidence_le_one_iff (k : Nat) :
    temporalConfidence k ≤ 1 ↔ k ≤ 3 := by
  unfold temporalConfidence
  constructor
  · intro h
    have hq : (k : ℚ) ≤ 3 := by linarith
    exact_mod_cast hq
  · intro h
    have hq : (k : ℚ) ≤ 3 := by exact_mod_cast h
    linarith

/-- C5 (amended): every causal, conceptual and behavioral pattern has
confidence in [0,1] (0.8, 0.9 and 0.7 respectively); a temporal pattern's
confidence is `0.7 + 0.1·k` for its number `k ≥ 1` of shared concepts,
which stays within [0,1] exactly when `k ≤ 3` and exceeds 1 from `k = 4`
on. -/
theorem c5_pattern_confidence_amended :
    (∀ ms p, p ∈ findCausalPatterns ms → 0 ≤ p.confidence ∧ p.confidence ≤ 1)
    ∧ (∀ gs p, p ∈ findConceptualPatterns gs → 0 ≤ p.confidence ∧ p.confidence ≤ 1)
    ∧ (∀ ms p, p ∈ findBehavioralPatterns ms → 0 ≤ p.confidence ∧ p.confidence ≤ 1)
    ∧ (∀ ms p, p ∈ findTemporalPatterns ms →
        ∃ k, 1 ≤ k ∧ p.confidence = temporalConfidence k
          ∧ (p.confidence ≤ 1 ↔ k ≤ 3)) := by
  refine ⟨?_, ?_, ?_, ?_⟩
  · intro ms p hp
    simp only [findCausalPatterns, List.mem_flatMap, List.mem_map] at hp
    obtain ⟨m, -, conn, -, ce, -, hpe⟩ := hp
    rw [← hpe]
    constructor <;> norm_num
  · intro gs p hp
    simp only [findConceptualPatterns, List.mem_filterMap] at hp
    obtain ⟨g, -, hf⟩ := hp
    split_ifs at hf with h1 h2
    simp only [Option.some.injEq] at hf
    rw [← hf]
    have hmin1 : min ((g.2.length : ℚ) * (1 / 10)) (3 / 10) ≤ 3 / 10 := min_le_right _ _
    have hmin0 : 0 ≤ min ((g.2.length : ℚ) * (1 / 10)) (3 / 10) := by
      apply le_min
      · positivity
      · norm_num
    constructor
    · show 0 ≤ 3 / 5 + min ((g.2.length : ℚ) * (1 / 10)) (3 / 10)
      linarith
    · show 3 / 5 + min ((g.2.length : ℚ) * (1 / 10)) (3 / 10) ≤ 1
      linarith
  · intro ms p hp
    simp only [findBehavioralPatterns, List.mem_filterMap] at hp
    obtain ⟨a, -, hf⟩ := hp
    split_ifs at hf with h1
    simp only [Option.some.injEq] at hf
    rw [← hf]
    constructor <;> norm_num
  · intro ms p hp
    simp only [findTemporalPatterns, List.mem_filterMap] at hp
    obtain ⟨pr, -, hf⟩ := hp
    split_ifs at hf with h1 h2
    simp only [Option.some.injEq] at hf
    refine ⟨(commonConcepts pr.1 pr.2).length, ?_, ?_, ?_⟩
    · cases hcc : commonConcepts pr.1 pr.2 with
      | nil => exact absurd hcc h2
      | cons x xs => simp
    · rw [← hf]
    · rw [← hf]
      exact temporalConfidence_le_one_iff _

/-- A record sharing four concepts with its successor. -/
def tmA : MemoryEntry :=
  { id := "t1", content := "first event", memory_type := "episodic",
    framework := "universal", concepts := ["c1", "c2", "c3", "c4"],
    importance := 1, metadata := [], created_at := 0, updated_at := 0 }

/-- Its adjacent successor, 100 seconds later, with the same concepts. -/
def tmB : MemoryEntry :=
  { id := "t2", content := "second event", memory_type := "episodic",
    framework := "universal", concepts := ["c1", "c2", "c3", "c4"],
    importance := 1, metadata := [], created_at := 100, updated_at := 100 }

/-- C5 (counterexample): two adjacent records sharing 4 concepts produce a
temporal pattern of confidence 0.7 + 4·0.1 = 1.1 > 1, refuting the [0,1]
bound claimed for all patterns. -/
theorem c5_counterexample :
    (findTemporalPatterns [tmA, tmB]).map MemoryPattern.confidence
      = [temporalConfidence 4]
    ∧ ¬(temporalConfidence 4 ≤ 1) := by
  constructor
  · rfl
  · unfold temporalConfidence
    norm_num

/-- The concrete causal pattern for the C5 witness. -/
def cwMem : MemoryEntry :=
  { id := "m", content := "a led to b", memory_type := "episodic",
    framework := "universal", concepts := [], importance := 1, metadata := [],
    created_at := 0, updated_at := 0 }

/-- The pattern `_find_causal_patterns` emits for `cwMem`. -/
def cwPattern : MemoryPattern :=
  { pattern_type := "causal", description := "Causal relationship: a → b",
    confidence := 4 / 5, supporting_memories := ["m"],
    extracted_knowledge := "Understanding: a typically results in b",
    concepts := ["a", "b"] }

theorem findCausal_cwMem : findCausalPatterns [cwMem] = [cwPattern] := by rfl

/-- C5 witness: the amended confidence theorem applied to the concrete
causal pattern of `cwMem`. -/
theorem c5_pattern_confidence_witness :
    0 ≤ cwPattern.confidence ∧ cwPattern.confidence ≤ 1 :=
  c5_pattern_confidence_amended.1 [cwMem] cwPattern
    (by rw [findCausal_cwMem]; exact List.mem_singleton.mpr rfl)

/-- C3: consolidation of a batch with fewer than 2 episodic records
returns — for every store API, even an always-failing one, so nothing is
raised — the zero-effect ConsolidationRun: zero semantic records, zero
new memories, score 0, empty pattern list. -/
theorem c3_small_batch_zero_result (storeApi : SemanticMemory → Except String String)
    (fw : String) (episodic : List MemoryEntry) (nowT : Nat)
    (h : episodic.length < 2) :
    consolidateFrameworkMemories storeApi fw episodic nowT
      = .ok { consolidation_id := "consolidation_" ++ fw ++ "_" ++ natRepr nowT,
              framework := fw, episodic_count := episodic.length, semantic_count := 0,
              consolidation_score := 0, patterns_found := [],
              new_memories_created := 0, started_at := nowT, completed_at := nowT } := by
  simp [consolidateFrameworkMemories, h]

/-- C3 witness: the zero-effect result on the empty batch under an
always-failing store API. -/
theorem c3_small_batch_zero_result_witness :
    consolidateFrameworkMemories (fun _ => .error ("down")) ("langchain") [] 9
      = .ok { consolidation_id := "consolidation_" ++ "langchain" ++ "_" ++ natRepr 9,
              framework := "langchain", episodic_count := 0, semantic_count := 0,
              consolidation_score := 0, patterns_found := [],
              new_memories_created := 0, started_at := 9, completed_at := 9 } :=
  c3_small_batch_zero_result (fun _ => .error ("down")) ("langchain") [] 9 (by decide)

/-- C4: every episodic record with importance in [0,1] that supports at
least one pattern gets the update `min(importance + Σ confidence·0.1, 1)`
issued for it, and (with nonnegative confidences, as all emitted
confidences are) the updated importance is again within [0,1]. -/
theorem c4_importance_boost (memories : List MemoryEntry)
    (patterns : List MemoryPattern) (m : MemoryEntry)
    (hm : m ∈ memories) (hsup : supportingPatterns patterns m.id ≠ [])
    (h0 : 0 ≤ m.importance) (_h1 : m.importance ≤ 1)
    (hconf : ∀ p ∈ patterns, 0 ≤ p.confidence) :
    (m.id, min (m.importance + importanceBoost patterns m.id) 1)
        ∈ updateMemoryImportance memories patterns
    ∧ 0 ≤ min (m.importance + importanceBoost patterns m.id) 1
    ∧ min (m.importance + importanceBoost patterns m.id) 1 ≤ 1 := by
  have hboost : 0 ≤ importanceBoost patterns m.id := by
    apply List.sum_nonneg
    intro x hx
    simp only [List.mem_map] at hx
    obtain ⟨p, hp, hxe⟩ := hx
    have hpp : p ∈ patterns := (List.mem_filter.mp hp).1
    rw [← hxe]
    have := hconf p hpp
    positivity
  refine ⟨?_, ?_, min_le_right _ _⟩
  · simp only [updateMemoryImportance, newImportance, List.mem_map]
    refine ⟨m, ?_, rfl⟩
    rw [List.mem_filter]
    refine ⟨hm, ?_⟩
    simp only [Bool.not_eq_true', List.isEmpty_iff]
    simpa using hsup
  · apply le_min
    · linarith
    · norm_num

/-- The episodic record for the C4 witness. -/
def c4Mem : MemoryEntry :=
  { id := "e1", content := "x", memory_type := "episodic",
    framework := "universal", concepts := [], importance := 0, metadata := [],
    created_at := 0, updated_at := 0 }

/-- A pattern supported by `c4Mem`, of confidence 1. -/
def c4Pattern : MemoryPattern :=
  { pattern_type := "behavioral", description := "d", confidence := 1,
    supporting_memories := ["e1"], extracted_knowledge := "k", concepts := [] }

/-- C4 witness: the boost theorem applied to one record supporting one
pattern. -/
theorem c4_importance_boost_witness :
    (("e1" : String), min ((0 : ℚ) + importanceBoost [c4Pattern] ("e1")) 1)
        ∈ updateMemoryImportance [c4Mem] [c4Pattern]
    ∧ 0 ≤ min ((0 : ℚ) + importanceBoost [c4Pattern] ("e1")) 1
    ∧ min ((0 : ℚ) + importanceBoost [c4Pattern] ("e1")) 1 ≤ 1 :=
  c4_importance_boost [c4Mem] [c4Pattern] c4Mem (List.mem_singleton.mpr rfl)
    (by decide) le_rfl zero_le_one
    (by
      intro p hp
      rw [List.mem_singleton.mp hp]
      exact zero_le_one)

end Consol
